import Mathlib

/-!
Shallow embedding of the recursive-descent parser / scope checker of
`sintatico.py`, together with proofs of the specified properties.

The Python `Parser` methods become functions over an explicit state record
`PState`.  The mutual recursion of the grammar productions is indexed by a
fuel parameter (structurally decreasing); `runParser` supplies a fuel that is
proved sufficient for every input.  Exceptions become an `Except` result:
`RuntimeError` raises map to `syntaxError` / `semanticError` according to the
message prefix used in the source, and uncaught Python interpreter exceptions
(`AttributeError`, `IndexError`) map to `crash`.
-/

/-- A lexical token: kind tag and literal text (`Token.__init__`). -/
structure Token where
  type : String
  value : String
deriving DecidableEq

/-- A syntax-tree node: kind tag, text payload, ordered children
(`Node.__init__` and `Node.add_child`). -/
inductive Node where
| mk (type : String) (value : String) (children : List Node)

/-- The kind tag of a node. -/
def Node.type : Node → String
| mk t _ _ => t

/-- The text payload of a node. -/
def Node.value : Node → String
| mk _ v _ => v

/-- The ordered children of a node. -/
def Node.children : Node → List Node
| mk _ _ c => c

/-- How a parse run can end abnormally.  The source raises `RuntimeError`
with a message starting `Semantic error:` for binding violations and a syntax
complaint otherwise; `crash` stands for an uncaught interpreter exception
(`AttributeError` / `IndexError`), which the driver's `except RuntimeError`
does not catch.  `outOfFuel` is an artefact of the fuel-indexed embedding,
proved unreachable for the fuel used by `runParser`. -/
inductive PError where
| syntaxError (msg : String)
| semanticError (msg : String)
| crash (msg : String)
| outOfFuel
deriving DecidableEq

/-- The mutable fields of the Python `Parser` object (`Parser.__init__`).
`eatStarts` / `eatEnds` are ghost instrumentation counting the `BLOCK_START` /
`BLOCK_END` tokens consumed through `eat`; they influence no behaviour and
exist only to state the block-counter invariant. -/
structure PState where
  tokens : List Token
  current : Nat
  blockCounter : Int
  definedFunctions : List String
  scopes : List (List (String × String))
  eatStarts : Nat
  eatEnds : Nat
deriving DecidableEq

/-- A single-quote character, used in the Python error-message texts. -/
def sQuote : String := "\x27"

/-- Python `repr` of an optional token as interpolated into error messages
(`Token.__repr__`; `None` prints as itself). -/
def tokenRepr : Option Token → String
| none => "None"
| some t => "Token(" ++ t.type ++ ", " ++ t.value ++ ")"

/-- Message of the `RuntimeError` raised by `Parser.eat` on a mismatch. -/
def eatMsg (t : Option Token) (kind : String) : String :=
  "Unexpected token: " ++ tokenRepr t ++ ", expected: " ++ kind ++ "."

/-- Message for a duplicate function name (`parse_function_definition`). -/
def funcDefinedMsg (name : String) : String :=
  "Semantic error: Function " ++ sQuote ++ name ++ sQuote ++ " is already defined."

/-- Message for a duplicate parameter name (`parse_function_definition`). -/
def paramDefinedMsg (name : String) : String :=
  "Semantic error: Parameter " ++ sQuote ++ name ++ sQuote ++ " is already defined."

/-- Message for a duplicate variable in the innermost scope
(`parse_variable_definition`). -/
def varDefinedMsg (name : String) : String :=
  "Semantic error: Variable " ++ sQuote ++ name ++ sQuote ++
    " is already defined in the current scope."

/-- Message for an identifier that resolves in no scope frame
(`parse_for_loop` and `parse_generic_statement`). -/
def undefinedMsg (name : String) : String :=
  "Semantic error: Variable " ++ sQuote ++ name ++ sQuote ++ " is not defined."

/-- Message of the end-of-parse block-balance check (`Parser.parse`). -/
def mismatchedMsg : String := "Syntax error: Mismatched block delimiters."

/-- Message for a for-loop whose initializer is not a variable definition
(`parse_for_loop`). -/
def forInitMsg (t : Option Token) : String :=
  "Syntax error: Expected variable definition, found " ++ tokenRepr t ++ "."

/-- Message of `parse_generic_statement` at exhausted input. -/
def endOfInputMsg : String := "Syntax error: Unexpected end of input."

/-- Message of the Python `AttributeError` raised when `.type` is read off
`None` (`parse_for_loop` line 142, `parse_statement_or_block` line 61). -/
def noneTypeMsg : String :=
  "AttributeError: " ++ sQuote ++ "NoneType" ++ sQuote ++ " object has no attribute " ++
    sQuote ++ "type" ++ sQuote

/-- Message of the Python `IndexError` raised by indexing or popping an empty
scope stack. -/
def indexErrMsg : String := "IndexError: list index out of range"

/-- Python `str.strip()` for the space-separated texts built by the
flattening loops. -/
def pyStrip (s : String) : String :=
  String.mk ((((s.toList.dropWhile (· = ' ')).reverse).dropWhile (· = ' ')).reverse)

/-- `Parser.current_token`: the token under the cursor, if any. -/
def currentToken (s : PState) : Option Token :=
  s.tokens[s.current]?

/-- Python truthiness-guarded kind test
`self.current_token() and self.current_token().type == kind`. -/
def isKind (t : Option Token) (kind : String) : Bool :=
  match t with
  | none => false
  | some tok => tok.type == kind

/-- The state change performed by a successful `Parser.eat` of one token of
the given kind: advance the cursor and adjust the block counter (and the
ghost eat-counters) on block delimiters. -/
def eatAdvance (kind : String) (s : PState) : PState :=
  { s with
    current := s.current + 1,
    blockCounter :=
      if kind = "BLOCK_START" then s.blockCounter + 1
      else if kind = "BLOCK_END" then s.blockCounter - 1
      else s.blockCounter,
    eatStarts := if kind = "BLOCK_START" then s.eatStarts + 1 else s.eatStarts,
    eatEnds := if kind = "BLOCK_END" then s.eatEnds + 1 else s.eatEnds }

/-- `Parser.eat`: consume the current token if its kind matches, adjusting
the block counter on block delimiters; otherwise a syntax error. -/
def eat (kind : String) (s : PState) : Except PError (Token × PState) :=
  match currentToken s with
  | some token =>
    if token.type = kind then .ok (token, eatAdvance kind s)
    else .error (.syntaxError (eatMsg (some token) kind))
  | none => .error (.syntaxError (eatMsg none kind))

/-- The raw cursor advance `self.current += 1` used by the flattening loops
and the generic-statement fallback; it does not touch the block counter. -/
def advance (s : PState) : PState := { s with current := s.current + 1 }

/-- Python `name in frame` over one scope frame (a dict keyed by name). -/
def frameHas (frame : List (String × String)) (name : String) : Bool :=
  frame.any (fun p => p.1 == name)

/-- `Parser.is_variable_defined`: the name resolves in some frame of the
scope stack (the source scans innermost-out and stops at the first hit, which
decides the same boolean). -/
def isVariableDefined (s : PState) (varName : String) : Bool :=
  s.scopes.any (fun frame => frameHas frame varName)

/-- `self.variable_scopes.append({})`. -/
def pushScope (s : PState) : PState := { s with scopes := s.scopes ++ [[]] }

/-- `self.variable_scopes.pop()`; popping an empty stack is an `IndexError`. -/
def popScope (s : PState) : Except PError PState :=
  if s.scopes.isEmpty then .error (.crash indexErrMsg)
  else .ok { s with scopes := s.scopes.dropLast }

/-- `self.variable_scopes[-1][name] = type`: insertion into the innermost
frame (callers reach this only with a non-empty stack and a fresh key). -/
def bindVar (name kindText : String) (s : PState) : PState :=
  { s with scopes := s.scopes.dropLast ++ [(s.scopes.getLast?.getD []) ++ [(name, kindText)]] }

/-- `Parser.parse_generic_statement`: a `Return` production with identifier
resolution, or any single token absorbed verbatim as a `Statement` node. -/
def parseGenericStatement (s : PState) : Except PError (Node × PState) :=
  match currentToken s with
  | none => .error (.syntaxError endOfInputMsg)
  | some token =>
    if token.type = "RETURN" then do
      let (_, s) ← eat "RETURN" s
      let (identTok, s) ← eat "IDENTIFIER" s
      if isVariableDefined s identTok.value then do
        let (_, s) ← eat "COMMAND_END" s
        .ok (Node.mk "Return" identTok.value [], s)
      else
        .error (.semanticError (undefinedMsg identTok.value))
    else
      .ok (Node.mk "Statement" token.value [], advance s)

/-- The flattening loop of `Parser.parse_expression`: concatenate literal
texts until a terminator kind (not consumed) or exhausted input. -/
def exprLoop (fuel : Nat) (acc : String) (s : PState) : Except PError (String × PState) :=
  match fuel with
  | 0 => .error .outOfFuel
  | fuel + 1 =>
    match currentToken s with
    | none => .ok (acc, s)
    | some token =>
      if token.type = "COMMAND_END" ∨ token.type = "RIGHT_PAREN" ∨ token.type = "BLOCK_END" then
        .ok (acc, s)
      else
        exprLoop fuel (acc ++ token.value ++ " ") (advance s)

/-- `Parser.parse_expression`. -/
def parseExpression (fuel : Nat) (s : PState) : Except PError (Node × PState) :=
  match fuel with
  | 0 => .error .outOfFuel
  | fuel + 1 => do
    let (v, s) ← exprLoop fuel "" s
    .ok (Node.mk "Expression" (pyStrip v) [], s)

/-- The two identifier-validating flattening loops of `Parser.parse_for_loop`
(`term` is `COMMAND_END` for the condition clause, `RIGHT_PAREN` for the
increment clause). -/
def scanUntil (fuel : Nat) (term : String) (acc : String) (s : PState) :
    Except PError (String × PState) :=
  match fuel with
  | 0 => .error .outOfFuel
  | fuel + 1 =>
    match currentToken s with
    | none => .ok (acc, s)
    | some token =>
      if token.type = term then .ok (acc, s)
      else if token.type = "IDENTIFIER" ∧ ¬ isVariableDefined s token.value then
        .error (.semanticError (undefinedMsg token.value))
      else
        scanUntil fuel term (acc ++ token.value ++ " ") (advance s)

/-- The parameter-list loop of `Parser.parse_function_definition`. -/
def paramsLoop (fuel : Nat) (children : List Node) (s : PState) :
    Except PError (List Node × PState) :=
  match fuel with
  | 0 => .error .outOfFuel
  | fuel + 1 =>
    match currentToken s with
    | none => .ok (children, s)
    | some token =>
      if token.type = "RIGHT_PAREN" then .ok (children, s)
      else do
        let (paramType, s) ← eat "TYPE" s
        let (paramName, s) ← eat "IDENTIFIER" s
        match s.scopes.getLast? with
        | none => .error (.crash indexErrMsg)
        | some frame =>
          if frameHas frame paramName.value then
            .error (.semanticError (paramDefinedMsg paramName.value))
          else
            paramsLoop fuel
              (children ++ [Node.mk "Parameter" (paramType.value ++ " " ++ paramName.value) []])
              (bindVar paramName.value paramType.value s)

/-- `Parser.parse_variable_definition`. -/
def parseVariableDefinition (fuel : Nat) (s : PState) : Except PError (Node × PState) :=
  match fuel with
  | 0 => .error .outOfFuel
  | fuel + 1 => do
    let (_, s) ← eat "VARIABLE_DEFINITION" s
    let (varType, s) ← eat "TYPE" s
    let (varName, s) ← eat "IDENTIFIER" s
    match s.scopes.getLast? with
    | none => .error (.crash indexErrMsg)
    | some frame =>
      if frameHas frame varName.value then
        .error (.semanticError (varDefinedMsg varName.value))
      else
        let s := bindVar varName.value varType.value s
        if isKind (currentToken s) "ASSIGN" then do
          let (_, s) ← eat "ASSIGN" s
          let (expr, s) ← parseExpression fuel s
          let (_, s) ← eat "COMMAND_END" s
          .ok (Node.mk "VariableDefinition"
                (varType.value ++ " " ++ varName.value ++ " = " ++ expr.value) [], s)
        else do
          let (_, s) ← eat "COMMAND_END" s
          .ok (Node.mk "VariableDefinition" (varType.value ++ " " ++ varName.value) [], s)

mutual

/-- `Parser.parse_statement_or_block`: dispatch on the current token's kind
(reading `.type` off an exhausted cursor would be an `AttributeError`; the
source's callers never do so). -/
def parseStatementOrBlock (fuel : Nat) (s : PState) : Except PError (Node × PState) :=
  match fuel with
  | 0 => .error .outOfFuel
  | fuel + 1 =>
    match currentToken s with
    | none => .error (.crash noneTypeMsg)
    | some token =>
      if token.type = "BLOCK_START" then parseBlock fuel s
      else if token.type = "FUNCTION_DEFINITION" then parseFunctionDefinition fuel s
      else if token.type = "VARIABLE_DEFINITION" then parseVariableDefinition fuel s
      else if token.type = "IF_CONDITIONAL" then parseIfConditional fuel s
      else if token.type = "FOR_LOOP" then parseForLoop fuel s
      else parseGenericStatement s
termination_by structural fuel

/-- `Parser.parse_block`: delimiters, a fresh scope frame for the body, the
statement loop, then the frame is popped before the closing delimiter is
consumed. -/
def parseBlock (fuel : Nat) (s : PState) : Except PError (Node × PState) :=
  match fuel with
  | 0 => .error .outOfFuel
  | fuel + 1 => do
    let (_, s) ← eat "BLOCK_START" s
    let s := pushScope s
    let (children, s) ← blockLoop fuel [] s
    let s ← popScope s
    let (_, s) ← eat "BLOCK_END" s
    .ok (Node.mk "Block" "" children, s)
termination_by structural fuel

/-- The statement loop inside `Parser.parse_block`. -/
def blockLoop (fuel : Nat) (children : List Node) (s : PState) :
    Except PError (List Node × PState) :=
  match fuel with
  | 0 => .error .outOfFuel
  | fuel + 1 =>
    match currentToken s with
    | none => .ok (children, s)
    | some token =>
      if token.type = "BLOCK_END" then .ok (children, s)
      else do
        let (child, s) ← parseStatementOrBlock fuel s
        blockLoop fuel (children ++ [child]) s
termination_by structural fuel

/-- `Parser.parse_function_definition`: global duplicate check on the name,
a scope frame for the parameters enclosing the body block, popped at the
end. -/
def parseFunctionDefinition (fuel : Nat) (s : PState) : Except PError (Node × PState) :=
  match fuel with
  | 0 => .error .outOfFuel
  | fuel + 1 => do
    let (_, s) ← eat "FUNCTION_DEFINITION" s
    let (funcType, s) ← eat "TYPE" s
    let (funcName, s) ← eat "IDENTIFIER" s
    if funcName.value ∈ s.definedFunctions then
      .error (.semanticError (funcDefinedMsg funcName.value))
    else do
      let s := { s with definedFunctions := s.definedFunctions ++ [funcName.value] }
      let (_, s) ← eat "LEFT_PAREN" s
      let s := pushScope s
      let (params, s) ← paramsLoop fuel [] s
      let (_, s) ← eat "RIGHT_PAREN" s
      let (_, s) ← eat "START_STATEMENT" s
      let (body, s) ← parseBlock fuel s
      let s ← popScope s
      .ok (Node.mk "FunctionDefinition" (funcName.value ++ ": " ++ funcType.value)
            [Node.mk "Parameters" "" params, body], s)
termination_by structural fuel

/-- `Parser.parse_if_conditional`: flattened condition, a block for the then
branch, and an optional else block wrapped in an `ElseConditional` node. -/
def parseIfConditional (fuel : Nat) (s : PState) : Except PError (Node × PState) :=
  match fuel with
  | 0 => .error .outOfFuel
  | fuel + 1 => do
    let (_, s) ← eat "IF_CONDITIONAL" s
    let (_, s) ← eat "LEFT_PAREN" s
    let (condition, s) ← parseExpression fuel s
    let (_, s) ← eat "RIGHT_PAREN" s
    let (_, s) ← eat "START_STATEMENT" s
    let (thenBlock, s) ← parseBlock fuel s
    if isKind (currentToken s) "ELSE_CONDITIONAL" then do
      let (_, s) ← eat "ELSE_CONDITIONAL" s
      let (elseBlock, s) ← parseBlock fuel s
      .ok (Node.mk "IfConditional" condition.value
            [thenBlock, Node.mk "ElseConditional" "" [elseBlock]], s)
    else
      .ok (Node.mk "IfConditional" condition.value [thenBlock], s)
termination_by structural fuel

/-- `Parser.parse_for_loop`: mandatory variable-definition initializer, the
two identifier-validating flattening clauses, then a body block.  The
initializer check reads `.type` off `current_token()` without a `None` guard;
at exhausted input that is an `AttributeError`. -/
def parseForLoop (fuel : Nat) (s : PState) : Except PError (Node × PState) :=
  match fuel with
  | 0 => .error .outOfFuel
  | fuel + 1 => do
    let (_, s) ← eat "FOR_LOOP" s
    let (_, s) ← eat "LEFT_PAREN" s
    match currentToken s with
    | none => .error (.crash noneTypeMsg)
    | some token =>
      if token.type = "VARIABLE_DEFINITION" then do
        let (initNode, s) ← parseVariableDefinition fuel s
        let (condText, s) ← scanUntil fuel "COMMAND_END" "" s
        let (_, s) ← eat "COMMAND_END" s
        let (incText, s) ← scanUntil fuel "RIGHT_PAREN" "" s
        let (_, s) ← eat "RIGHT_PAREN" s
        let (_, s) ← eat "START_STATEMENT" s
        let (body, s) ← parseBlock fuel s
        .ok (Node.mk "ForLoop" ""
              [initNode, Node.mk "Condition" (pyStrip condText) [],
               Node.mk "Increment" (pyStrip incText) [], body], s)
      else
        .error (.syntaxError (forInitMsg (some token)))
termination_by structural fuel

/-- The top-level statement loop inside `Parser.parse`. -/
def topLoop (fuel : Nat) (children : List Node) (s : PState) :
    Except PError (List Node × PState) :=
  match fuel with
  | 0 => .error .outOfFuel
  | fuel + 1 =>
    match currentToken s with
    | none => .ok (children, s)
    | some token =>
      if token.type = "PROGRAM_END" then .ok (children, s)
      else do
        let (child, s) ← parseStatementOrBlock fuel s
        topLoop fuel (children ++ [child]) s
termination_by structural fuel

/-- `Parser.parse`: the whole-program production with the end-of-parse
block-delimiter balance check. -/
def parseProgram (fuel : Nat) (s : PState) : Except PError (Node × PState) :=
  match fuel with
  | 0 => .error .outOfFuel
  | fuel + 1 => do
    let (_, s) ← eat "PROGRAM_START" s
    let (children, s) ← topLoop fuel [] s
    let (_, s) ← eat "PROGRAM_END" s
    if s.blockCounter ≠ 0 then .error (.syntaxError mismatchedMsg)
    else .ok (Node.mk "Program" "" children, s)

end

/-- `Parser.__init__`: a fresh parser state over a token list — cursor at 0,
zero block counter, no defined functions, a single empty global scope frame. -/
def initState (tokens : List Token) : PState :=
  { tokens := tokens, current := 0, blockCounter := 0, definedFunctions := [],
    scopes := [[]], eatStarts := 0, eatEnds := 0 }

/-- Fuel that suffices for any input (`runParser_total`). -/
def parseFuel (tokens : List Token) : Nat := 3 * tokens.length + 8

/-- One parse run: `Parser(tokens).parse()`. -/
def runParser (tokens : List Token) : Except PError (Node × PState) :=
  parseProgram (parseFuel tokens) (initState tokens)

/-- The block-counter bookkeeping invariant: the counter equals the number of
`BLOCK_START` tokens minus the number of `BLOCK_END` tokens consumed through
the kind-checked `eat` primitive (the ghost fields). -/
def CounterInv (s : PState) : Prop :=
  s.blockCounter = (s.eatStarts : Int) - s.eatEnds

/-- Number of tokens of a given kind in a list (claim-side counting of
consumed delimiters). -/
def countKind (kind : String) (ts : List Token) : Nat :=
  (ts.filter (fun t => t.type == kind)).length

/-- Claim-side description of a flattening segment: the upcoming tokens
strictly before the first token of the terminator kind. -/
def segTokens (term : String) (s : PState) : List Token :=
  (s.tokens.drop s.current).takeWhile (fun t => !(t.type == term))

/-- Claim-side: the first identifier token of a segment that resolves in no
frame of the scope stack. -/
def firstUndefined (ts : List Token) (s : PState) : Option Token :=
  ts.find? (fun t => t.type == "IDENTIFIER" && !(isVariableDefined s t.value))

/-- Claim-side: the space-joined literal texts of a segment appended to an
accumulator. -/
def joinValues (acc : String) (ts : List Token) : String :=
  ts.foldl (fun a t => a ++ t.value ++ " ") acc

/-- The cursor moved forward over a whole segment. -/
def advanceBy (n : Nat) (s : PState) : PState := { s with current := s.current + n }

/-- Input of the C1 scenario: a for-loop whose initializer position is
reached with the input exhausted. -/
def c1Tokens : List Token :=
  [Token.mk "PROGRAM_START" "inicio", Token.mk "FOR_LOOP" "for",
   Token.mk "LEFT_PAREN" "("]

/-- Input of the C2 counterexample: a stray `BLOCK_END` absorbed by the
generic-statement fallback without touching the block counter. -/
def c2Tokens : List Token :=
  [Token.mk "PROGRAM_START" "inicio", Token.mk "BLOCK_END" "\x7d",
   Token.mk "PROGRAM_END" "fim"]

/-- Final parser state of the successful run over `c2Tokens`. -/
def c2Final : PState :=
  { tokens := c2Tokens, current := 3, blockCounter := 0, definedFunctions := [],
    scopes := [[]], eatStarts := 0, eatEnds := 0 }

/-- The concrete scenario input of the specification (C3). -/
def c3Tokens : List Token :=
  [Token.mk "PROGRAM_START" "inicio", Token.mk "VARIABLE_DEFINITION" "var",
   Token.mk "TYPE" "int", Token.mk "IDENTIFIER" "x", Token.mk "ASSIGN" "=",
   Token.mk "IDENTIFIER" "1", Token.mk "COMMAND_END" ";",
   Token.mk "RETURN" "return", Token.mk "IDENTIFIER" "x",
   Token.mk "COMMAND_END" ";", Token.mk "PROGRAM_END" "fim"]

/-- Tree produced by the run over `c3Tokens`. -/
def c3Tree : Node :=
  Node.mk "Program" ""
    [Node.mk "VariableDefinition" "int x = 1" [], Node.mk "Return" "x" []]

/-- Final parser state of the successful run over `c3Tokens`. -/
def c3Final : PState :=
  { tokens := c3Tokens, current := 11, blockCounter := 0, definedFunctions := [],
    scopes := [[("x", "int")]], eatStarts := 0, eatEnds := 0 }

/-- Two function definitions both named main (C4). -/
def c4Tokens : List Token :=
  [Token.mk "PROGRAM_START" "inicio",
   Token.mk "FUNCTION_DEFINITION" "def", Token.mk "TYPE" "int",
   Token.mk "IDENTIFIER" "main", Token.mk "LEFT_PAREN" "(",
   Token.mk "RIGHT_PAREN" ")", Token.mk "START_STATEMENT" ":",
   Token.mk "BLOCK_START" "\x7b", Token.mk "BLOCK_END" "\x7d",
   Token.mk "FUNCTION_DEFINITION" "def", Token.mk "TYPE" "int",
   Token.mk "IDENTIFIER" "main", Token.mk "LEFT_PAREN" "(",
   Token.mk "RIGHT_PAREN" ")", Token.mk "START_STATEMENT" ":",
   Token.mk "BLOCK_START" "\x7b", Token.mk "BLOCK_END" "\x7d",
   Token.mk "PROGRAM_END" "fim"]

/-- A state about to parse a function definition whose name is already in the
global definition set (C4 witness). -/
def c4DupState : PState :=
  { tokens := [Token.mk "FUNCTION_DEFINITION" "def", Token.mk "TYPE" "int",
      Token.mk "IDENTIFIER" "main"],
    current := 0, blockCounter := 0, definedFunctions := ["main"],
    scopes := [[]], eatStarts := 0, eatEnds := 0 }

/-- A single variable-definition statement (used to witness statement-level
facts on a concrete successful parse). -/
def c4StmtTokens : List Token :=
  [Token.mk "VARIABLE_DEFINITION" "var", Token.mk "TYPE" "int",
   Token.mk "IDENTIFIER" "y", Token.mk "COMMAND_END" ";"]

/-- Final state of parsing the single statement `c4StmtTokens`. -/
def c4StmtFinal : PState :=
  { tokens := c4StmtTokens, current := 4, blockCounter := 0,
    definedFunctions := [], scopes := [[("y", "int")]],
    eatStarts := 0, eatEnds := 0 }

/-- Shadowing scenario: `a` defined at top level and redefined inside a
nested block (C5, accepted). -/
def c5aTokens : List Token :=
  [Token.mk "PROGRAM_START" "inicio",
   Token.mk "VARIABLE_DEFINITION" "var", Token.mk "TYPE" "int",
   Token.mk "IDENTIFIER" "a", Token.mk "COMMAND_END" ";",
   Token.mk "BLOCK_START" "\x7b",
   Token.mk "VARIABLE_DEFINITION" "var", Token.mk "TYPE" "int",
   Token.mk "IDENTIFIER" "a", Token.mk "COMMAND_END" ";",
   Token.mk "BLOCK_END" "\x7d",
   Token.mk "PROGRAM_END" "fim"]

/-- Tree produced by the run over `c5aTokens`. -/
def c5aTree : Node :=
  Node.mk "Program" ""
    [Node.mk "VariableDefinition" "int a" [],
     Node.mk "Block" "" [Node.mk "VariableDefinition" "int a" []]]

/-- Same-scope redefinition scenario: `a` defined twice in the same block
scope (C5, rejected). -/
def c5bTokens : List Token :=
  [Token.mk "PROGRAM_START" "inicio",
   Token.mk "VARIABLE_DEFINITION" "var", Token.mk "TYPE" "int",
   Token.mk "IDENTIFIER" "a", Token.mk "COMMAND_END" ";",
   Token.mk "VARIABLE_DEFINITION" "var", Token.mk "TYPE" "int",
   Token.mk "IDENTIFIER" "a", Token.mk "COMMAND_END" ";",
   Token.mk "PROGRAM_END" "fim"]

/-- A state about to parse a variable definition whose name is already bound
in the innermost scope frame (C5 witness). -/
def c5WitState : PState :=
  { tokens := [Token.mk "VARIABLE_DEFINITION" "var", Token.mk "TYPE" "int",
      Token.mk "IDENTIFIER" "a"],
    current := 0, blockCounter := 0, definedFunctions := [],
    scopes := [[("a", "int")]], eatStarts := 0, eatEnds := 0 }

/-- Sibling-block scenario: `a` defined in one block and used in the next
(C6, rejected with a not-defined semantic error). -/
def c6Tokens : List Token :=
  [Token.mk "PROGRAM_START" "inicio",
   Token.mk "BLOCK_START" "\x7b",
   Token.mk "VARIABLE_DEFINITION" "var", Token.mk "TYPE" "int",
   Token.mk "IDENTIFIER" "a", Token.mk "COMMAND_END" ";",
   Token.mk "BLOCK_END" "\x7d",
   Token.mk "BLOCK_START" "\x7b",
   Token.mk "RETURN" "return", Token.mk "IDENTIFIER" "a",
   Token.mk "COMMAND_END" ";",
   Token.mk "BLOCK_END" "\x7d",
   Token.mk "PROGRAM_END" "fim"]

/-- An empty block at cursor 0 (C6 witness input). -/
def c6BlockInit : PState :=
  { tokens := [Token.mk "BLOCK_START" "\x7b", Token.mk "BLOCK_END" "\x7d"],
    current := 0, blockCounter := 0, definedFunctions := [],
    scopes := [[]], eatStarts := 0, eatEnds := 0 }

/-- Final state of parsing the block of `c6BlockInit`. -/
def c6BlockFinal : PState :=
  { tokens := [Token.mk "BLOCK_START" "\x7b", Token.mk "BLOCK_END" "\x7d"],
    current := 2, blockCounter := 0, definedFunctions := [],
    scopes := [[]], eatStarts := 1, eatEnds := 1 }

/-- A for-loop whose condition and increment clauses reference the
initializer variable (C7, accepted). -/
def c7Tokens : List Token :=
  [Token.mk "PROGRAM_START" "inicio",
   Token.mk "FOR_LOOP" "for", Token.mk "LEFT_PAREN" "(",
   Token.mk "VARIABLE_DEFINITION" "var", Token.mk "TYPE" "int",
   Token.mk "IDENTIFIER" "i", Token.mk "ASSIGN" "=",
   Token.mk "NUMBER" "0", Token.mk "COMMAND_END" ";",
   Token.mk "IDENTIFIER" "i", Token.mk "OPERATOR" "<",
   Token.mk "NUMBER" "10", Token.mk "COMMAND_END" ";",
   Token.mk "IDENTIFIER" "i", Token.mk "OPERATOR" "++",
   Token.mk "RIGHT_PAREN" ")", Token.mk "START_STATEMENT" ":",
   Token.mk "BLOCK_START" "\x7b", Token.mk "BLOCK_END" "\x7d",
   Token.mk "PROGRAM_END" "fim"]

/-- Tree produced by the run over `c7Tokens`. -/
def c7Tree : Node :=
  Node.mk "Program" ""
    [Node.mk "ForLoop" ""
      [Node.mk "VariableDefinition" "int i = 0" [],
       Node.mk "Condition" "i < 10" [],
       Node.mk "Increment" "i ++" [],
       Node.mk "Block" "" []]]

/-- A small state for the C7 scan witness: one defined and one undefined
identifier ahead of the terminator. -/
def c7ScanState : PState :=
  { tokens := [Token.mk "IDENTIFIER" "i", Token.mk "OPERATOR" "<",
      Token.mk "IDENTIFIER" "n", Token.mk "COMMAND_END" ";"],
    current := 0, blockCounter := 0, definedFunctions := [],
    scopes := [[("i", "int")]], eatStarts := 0, eatEnds := 0 }

/-- Suffix appended after the consumed program for the C10 witness. -/
def c10Suf : List Token :=
  [Token.mk "BLOCK_END" "\x7d", Token.mk "IDENTIFIER" "junk"]

/-- A state whose token list has been extended past the end (used to state
that a parse run never examines tokens beyond those it consumes). -/
def extState (s : PState) (suf : List Token) : PState :=
  { s with tokens := s.tokens ++ suf }

/-- Facts preserved by every parsing step about the non-scope parser fields:
the token list is read-only, the cursor moves monotonically and stays in
bounds, the block counter stays in sync with the ghost eat-counters, and the
set of defined function names only grows. -/
structure CorePost (s s' : PState) : Prop where
  tokens_eq : s'.tokens = s.tokens
  current_mono : s.current ≤ s'.current
  current_le : s.current ≤ s.tokens.length → s'.current ≤ s.tokens.length
  counter_inv : s.blockCounter = (s.eatStarts : Int) - s.eatEnds →
    s'.blockCounter = (s'.eatStarts : Int) - s'.eatEnds
  funcs_sub : s.definedFunctions ⊆ s'.definedFunctions

theorem CorePost.rfl {s : PState} : CorePost s s :=
  ⟨Eq.refl _, Nat.le.refl, fun h => h, fun h => h, fun _ h => h⟩

theorem CorePost.comp {s t u : PState} (h1 : CorePost s t) (h2 : CorePost t u) :
    CorePost s u := by
  refine ⟨h2.tokens_eq.trans h1.tokens_eq, le_trans h1.current_mono h2.current_mono,
    ?_, fun h => h2.counter_inv (h1.counter_inv h), fun x hx => h2.funcs_sub (h1.funcs_sub hx)⟩
  intro h
  have := h2.current_le (by rw [h1.tokens_eq]; exact h1.current_le h)
  rwa [h1.tokens_eq] at this

theorem pbind_ok {α β : Type} {x : Except PError α} {f : α → Except PError β} {b : β} :
    x >>= f = .ok b ↔ ∃ a, x = .ok a ∧ f a = .ok b := by
  cases x <;> simp [Bind.bind, Except.bind]

theorem pbind_error {α β : Type} {x : Except PError α} {f : α → Except PError β}
    {e : PError} :
    x >>= f = .error e ↔ x = .error e ∨ ∃ a, x = .ok a ∧ f a = .error e := by
  cases x <;> simp [Bind.bind, Except.bind]

theorem currentToken_some_lt {s : PState} {t : Token} (h : currentToken s = some t) :
    s.current < s.tokens.length := by
  unfold currentToken at h
  exact (List.getElem?_eq_some.mp h).1

theorem eat_ok_elim {k : String} {s : PState} {tk : Token} {s' : PState}
    (h : eat k s = .ok (tk, s')) :
    currentToken s = some tk ∧ tk.type = k ∧ s' = eatAdvance k s := by
  unfold eat at h
  cases hc : currentToken s with
  | none => rw [hc] at h; exact absurd h (by simp)
  | some t0 =>
    rw [hc] at h
    by_cases ht : t0.type = k
    · simp only [ht, if_true, Except.ok.injEq, Prod.mk.injEq] at h
      obtain ⟨h1, h2⟩ := h
      exact ⟨by rw [h1], by rw [← h1]; exact ht, h2.symm⟩
    · simp [ht] at h

theorem eat_ok_intro {k : String} {s : PState} {tk : Token}
    (hc : currentToken s = some tk) (ht : tk.type = k) :
    eat k s = .ok (tk, eatAdvance k s) := by
  unfold eat
  rw [hc]
  simp [ht]

theorem eat_error_syntax {k : String} {s : PState} {e : PError}
    (h : eat k s = .error e) : ∃ m, e = .syntaxError m := by
  unfold eat at h
  cases hc : currentToken s with
  | none => rw [hc] at h; exact ⟨_, (Except.error.injEq _ _ |>.mp h).symm⟩
  | some t0 =>
    rw [hc] at h
    by_cases ht : t0.type = k
    · simp [ht] at h
    · simp only [ht, if_false, Except.error.injEq] at h
      exact ⟨_, h.symm⟩

theorem eat_post {k : String} {s : PState} {tk : Token} {s' : PState}
    (h : eat k s = .ok (tk, s')) :
    CorePost s s' ∧ s.current < s'.current ∧ s'.scopes = s.scopes := by
  obtain ⟨hc, _, hs⟩ := eat_ok_elim h
  have hlt := currentToken_some_lt hc
  subst hs
  refine ⟨⟨rfl, Nat.le_succ _, fun _ => hlt, ?_, fun x hx => hx⟩, Nat.lt_succ_self _, rfl⟩
  intro hinv
  by_cases h1 : k = "BLOCK_START" <;> by_cases h2 : k = "BLOCK_END" <;>
    simp [eatAdvance, h1, h2, hinv] <;> omega

theorem advance_post {s : PState} {t : Token} (hc : currentToken s = some t) :
    CorePost s (advance s) ∧ s.current < (advance s).current ∧
    (advance s).scopes = s.scopes := by
  have hlt := currentToken_some_lt hc
  exact ⟨⟨rfl, Nat.le_succ _, fun _ => hlt, fun h => h, fun x hx => hx⟩,
    Nat.lt_succ_self _, rfl⟩

theorem popScope_ok {s s' : PState} (h : popScope s = .ok s') :
    s' = { s with scopes := s.scopes.dropLast } ∧ s.scopes ≠ [] := by
  unfold popScope at h
  split at h
  · exact absurd h (by simp)
  · rename_i hne
    exact ⟨((Except.ok.injEq _ _).mp h).symm, by simpa [List.isEmpty_iff] using hne⟩

theorem bindVar_scopes (n t : String) {s : PState} (hne : s.scopes ≠ []) :
    (bindVar n t s).scopes.length = s.scopes.length ∧
    (bindVar n t s).scopes.dropLast = s.scopes.dropLast := by
  unfold bindVar
  constructor
  · simp only [List.length_append, List.length_dropLast, List.length_cons,
      List.length_nil]
    have := List.length_pos.mpr hne
    omega
  · exact List.dropLast_concat ..

theorem bindVar_core {n t : String} {s : PState} : CorePost s (bindVar n t s) :=
  ⟨rfl, Nat.le.refl, fun h => h, fun h => h, fun _ hx => hx⟩

theorem parseGenericStatement_post {s : PState} {v : Node} {s' : PState}
    (h : parseGenericStatement s = .ok (v, s')) :
    CorePost s s' ∧ s.current < s'.current ∧ s'.scopes = s.scopes := by
  unfold parseGenericStatement at h
  split at h
  · exact absurd h (by simp)
  · rename_i token hc
    split at h
    · obtain ⟨⟨tk1, s1⟩, he1, h⟩ := pbind_ok.mp h
      dsimp only at h
      obtain ⟨⟨tk2, s2⟩, he2, h⟩ := pbind_ok.mp h
      dsimp only at h
      obtain ⟨hp1, hl1, hsc1⟩ := eat_post he1
      obtain ⟨hp2, hl2, hsc2⟩ := eat_post he2
      split at h
      · obtain ⟨⟨tk3, s3⟩, he3, h⟩ := pbind_ok.mp h
        dsimp only at h
        obtain ⟨hp3, hl3, hsc3⟩ := eat_post he3
        obtain ⟨_, hfin⟩ := Prod.mk.injEq .. |>.mp ((Except.ok.injEq _ _).mp h)
        subst hfin
        exact ⟨(hp1.comp hp2).comp hp3, by omega, by rw [hsc3, hsc2, hsc1]⟩
      · exact absurd h (by simp)
    · obtain ⟨_, hfin⟩ := Prod.mk.injEq .. |>.mp ((Except.ok.injEq _ _).mp h)
      subst hfin
      obtain ⟨hp, hl, hsc⟩ := advance_post hc
      exact ⟨hp, hl, hsc⟩

theorem exprLoop_post {fuel : Nat} {acc : String} {s : PState} {v : String} {s' : PState}
    (h : exprLoop fuel acc s = .ok (v, s')) :
    CorePost s s' ∧ s'.scopes = s.scopes := by
  induction fuel generalizing acc s v s' with
  | zero => exact absurd h (by simp [exprLoop])
  | succ fuel ih =>
    unfold exprLoop at h
    split at h
    · obtain ⟨_, hfin⟩ := Prod.mk.injEq .. |>.mp ((Except.ok.injEq _ _).mp h)
      subst hfin
      exact ⟨CorePost.rfl, rfl⟩
    · rename_i token hc
      split at h
      · obtain ⟨_, hfin⟩ := Prod.mk.injEq .. |>.mp ((Except.ok.injEq _ _).mp h)
        subst hfin
        exact ⟨CorePost.rfl, rfl⟩
      · obtain ⟨hp0, _, hsc0⟩ := advance_post hc
        obtain ⟨hp, hsc⟩ := ih h
        exact ⟨hp0.comp hp, by rw [hsc, hsc0]⟩

theorem exprLoop_error {fuel : Nat} {acc : String} {s : PState} {e : PError}
    (h : exprLoop fuel acc s = .error e) : e = .outOfFuel := by
  induction fuel generalizing acc s with
  | zero =>
    unfold exprLoop at h
    exact ((Except.error.injEq _ _).mp h).symm
  | succ fuel ih =>
    unfold exprLoop at h
    split at h
    · exact absurd h (by simp)
    · split at h
      · exact absurd h (by simp)
      · exact ih h

theorem exprLoop_fuel {fuel : Nat} {acc : String} {s : PState}
    (hf : s.tokens.length - s.current < fuel) :
    exprLoop fuel acc s ≠ .error .outOfFuel := by
  induction fuel generalizing acc s with
  | zero => omega
  | succ fuel ih =>
    unfold exprLoop
    split
    · simp
    · rename_i token hc
      have hlt := currentToken_some_lt hc
      split
      · simp
      · exact ih (by simp only [advance]; omega)

theorem parseExpression_post {fuel : Nat} {s : PState} {v : Node} {s' : PState}
    (h : parseExpression fuel s = .ok (v, s')) :
    CorePost s s' ∧ s'.scopes = s.scopes := by
  cases fuel with
  | zero => exact absurd h (by simp [parseExpression])
  | succ fuel =>
    unfold parseExpression at h
    obtain ⟨⟨v1, s1⟩, he1, h⟩ := pbind_ok.mp h
    dsimp only at h
    obtain ⟨_, hfin⟩ := Prod.mk.injEq .. |>.mp ((Except.ok.injEq _ _).mp h)
    subst hfin
    exact exprLoop_post he1

theorem parseExpression_error {fuel : Nat} {s : PState} {e : PError}
    (h : parseExpression fuel s = .error e) : e = .outOfFuel := by
  cases fuel with
  | zero =>
    unfold parseExpression at h
    exact ((Except.error.injEq _ _).mp h).symm
  | succ fuel =>
    unfold parseExpression at h
    rcases pbind_error.mp h with h1 | ⟨⟨v1, s1⟩, _, h2⟩
    · exact exprLoop_error h1
    · exact absurd h2 (by simp)

theorem parseExpression_fuel {fuel : Nat} {s : PState}
    (hf : s.tokens.length - s.current + 1 < fuel) :
    parseExpression fuel s ≠ .error .outOfFuel := by
  cases fuel with
  | zero => omega
  | succ fuel =>
    unfold parseExpression
    intro h
    rcases pbind_error.mp h with h1 | ⟨⟨v1, s1⟩, _, h2⟩
    · exact exprLoop_fuel (by omega) h1
    · exact absurd h2 (by simp)

theorem scanUntil_post {fuel : Nat} {term acc : String} {s : PState} {v : String}
    {s' : PState} (h : scanUntil fuel term acc s = .ok (v, s')) :
    CorePost s s' ∧ s'.scopes = s.scopes := by
  induction fuel generalizing acc s v s' with
  | zero => exact absurd h (by simp [scanUntil])
  | succ fuel ih =>
    unfold scanUntil at h
    split at h
    · obtain ⟨_, hfin⟩ := Prod.mk.injEq .. |>.mp ((Except.ok.injEq _ _).mp h)
      subst hfin
      exact ⟨CorePost.rfl, rfl⟩
    · rename_i token hc
      split at h
      · obtain ⟨_, hfin⟩ := Prod.mk.injEq .. |>.mp ((Except.ok.injEq _ _).mp h)
        subst hfin
        exact ⟨CorePost.rfl, rfl⟩
      · split at h
        · exact absurd h (by simp)
        · obtain ⟨hp0, _, hsc0⟩ := advance_post hc
          obtain ⟨hp, hsc⟩ := ih h
          exact ⟨hp0.comp hp, by rw [hsc, hsc0]⟩

theorem scanUntil_fuel {fuel : Nat} {term acc : String} {s : PState}
    (hf : s.tokens.length - s.current < fuel) :
    scanUntil fuel term acc s ≠ .error .outOfFuel := by
  induction fuel generalizing acc s with
  | zero => omega
  | succ fuel ih =>
    unfold scanUntil
    split
    · simp
    · rename_i token hc
      have hlt := currentToken_some_lt hc
      split
      · simp
      · split
        · simp
        · exact ih (by simp only [advance]; omega)

theorem getLast?_some_ne_nil {α : Type} {l : List α} {a : α}
    (h : l.getLast? = some a) : l ≠ [] := by
  intro he
  subst he
  simp at h

theorem paramsLoop_post {fuel : Nat} {children : List Node} {s : PState}
    {v : List Node} {s' : PState} (h : paramsLoop fuel children s = .ok (v, s')) :
    CorePost s s' ∧ s'.scopes.length = s.scopes.length ∧
    s'.scopes.dropLast = s.scopes.dropLast := by
  induction fuel generalizing children s v s' with
  | zero => exact absurd h (by simp [paramsLoop])
  | succ fuel ih =>
    unfold paramsLoop at h
    split at h
    · obtain ⟨_, hfin⟩ := Prod.mk.injEq .. |>.mp ((Except.ok.injEq _ _).mp h)
      subst hfin
      exact ⟨CorePost.rfl, rfl, rfl⟩
    · rename_i token hc
      split at h
      · obtain ⟨_, hfin⟩ := Prod.mk.injEq .. |>.mp ((Except.ok.injEq _ _).mp h)
        subst hfin
        exact ⟨CorePost.rfl, rfl, rfl⟩
      · obtain ⟨⟨tk1, s1⟩, he1, h⟩ := pbind_ok.mp h
        dsimp only at h
        obtain ⟨⟨tk2, s2⟩, he2, h⟩ := pbind_ok.mp h
        dsimp only at h
        obtain ⟨hp1, hl1, hsc1⟩ := eat_post he1
        obtain ⟨hp2, hl2, hsc2⟩ := eat_post he2
        split at h
        · exact absurd h (by simp)
        · rename_i frame hg
          split at h
          · exact absurd h (by simp)
          · have hne := getLast?_some_ne_nil hg
            obtain ⟨hbl, hbd⟩ := bindVar_scopes tk2.value tk1.value hne
            obtain ⟨hp, hsl, hsd⟩ := ih h
            refine ⟨(hp1.comp hp2).comp (bindVar_core.comp hp), ?_, ?_⟩
            · rw [hsl, hbl, hsc2, hsc1]
            · rw [hsd, hbd, hsc2, hsc1]

theorem paramsLoop_fuel {fuel : Nat} {children : List Node} {s : PState}
    (hf : s.tokens.length - s.current < fuel) :
    paramsLoop fuel children s ≠ .error .outOfFuel := by
  induction fuel generalizing children s with
  | zero => omega
  | succ fuel ih =>
    unfold paramsLoop
    split
    · simp
    · rename_i token hc
      split
      · simp
      · intro h
        rcases pbind_error.mp h with h1 | ⟨⟨tk1, s1⟩, he1, h⟩
        · obtain ⟨m, hm⟩ := eat_error_syntax h1
          simp at hm
        · dsimp only at h
          rcases pbind_error.mp h with h2 | ⟨⟨tk2, s2⟩, he2, h⟩
          · obtain ⟨m, hm⟩ := eat_error_syntax h2
            simp at hm
          · dsimp only at h
            obtain ⟨hc1, _, hs1⟩ := eat_ok_elim he1
            obtain ⟨hc2, _, hs2⟩ := eat_ok_elim he2
            have hlt1 := currentToken_some_lt hc1
            have hlt2 := currentToken_some_lt hc2
            split at h
            · simp at h
            · split at h
              · simp at h
              · refine ih ?_ h
                subst hs1; subst hs2
                simp only [bindVar, advance, eatAdvance] at *
                omega

theorem parseVariableDefinition_post {fuel : Nat} {s : PState} {v : Node} {s' : PState}
    (h : parseVariableDefinition fuel s = .ok (v, s')) :
    CorePost s s' ∧ s.current < s'.current ∧
    s'.scopes.length = s.scopes.length ∧ s'.scopes.dropLast = s.scopes.dropLast := by
  cases fuel with
  | zero => exact absurd h (by simp [parseVariableDefinition])
  | succ fuel =>
    unfold parseVariableDefinition at h
    obtain ⟨⟨tk1, s1⟩, he1, h⟩ := pbind_ok.mp h
    dsimp only at h
    obtain ⟨⟨tk2, s2⟩, he2, h⟩ := pbind_ok.mp h
    dsimp only at h
    obtain ⟨⟨tk3, s3⟩, he3, h⟩ := pbind_ok.mp h
    dsimp only at h
    obtain ⟨hp1, hl1, hsc1⟩ := eat_post he1
    obtain ⟨hp2, hl2, hsc2⟩ := eat_post he2
    obtain ⟨hp3, hl3, hsc3⟩ := eat_post he3
    split at h
    · exact absurd h (by simp)
    · rename_i frame hg
      split at h
      · exact absurd h (by simp)
      · have hne := getLast?_some_ne_nil hg
        obtain ⟨hbl, hbd⟩ := bindVar_scopes tk3.value tk2.value hne
        have hbc : (bindVar tk3.value tk2.value s3).current = s3.current := rfl
        have hchain : s3.scopes.length = s.scopes.length ∧
            s3.scopes.dropLast = s.scopes.dropLast := by
          rw [hsc3, hsc2, hsc1]; exact ⟨rfl, rfl⟩
        split at h
        · obtain ⟨⟨tk4, s4⟩, he4, h⟩ := pbind_ok.mp h
          dsimp only at h
          obtain ⟨⟨ex, s5⟩, he5, h⟩ := pbind_ok.mp h
          dsimp only at h
          obtain ⟨⟨tk6, s6⟩, he6, h⟩ := pbind_ok.mp h
          dsimp only at h
          obtain ⟨_, hfin⟩ := Prod.mk.injEq .. |>.mp ((Except.ok.injEq _ _).mp h)
          subst hfin
          obtain ⟨hp4, hl4, hsc4⟩ := eat_post he4
          obtain ⟨hp5, hsc5⟩ := parseExpression_post he5
          obtain ⟨hp6, hl6, hsc6⟩ := eat_post he6
          refine ⟨((((hp1.comp hp2).comp hp3).comp bindVar_core).comp
            ((hp4.comp hp5).comp hp6)), ?_, ?_, ?_⟩
          · have := hp5.current_mono
            omega
          · rw [hsc6, hsc5, hsc4, hbl, hchain.1]
          · rw [hsc6, hsc5, hsc4, hbd, hchain.2]
        · obtain ⟨⟨tk4, s4⟩, he4, h⟩ := pbind_ok.mp h
          dsimp only at h
          obtain ⟨_, hfin⟩ := Prod.mk.injEq .. |>.mp ((Except.ok.injEq _ _).mp h)
          subst hfin
          obtain ⟨hp4, hl4, hsc4⟩ := eat_post he4
          refine ⟨(((hp1.comp hp2).comp hp3).comp bindVar_core).comp hp4, ?_, ?_, ?_⟩
          · omega
          · rw [hsc4, hbl, hchain.1]
          · rw [hsc4, hbd, hchain.2]

theorem parseVariableDefinition_fuel {fuel : Nat} {s : PState}
    (hf : s.tokens.length - s.current + 2 ≤ fuel) :
    parseVariableDefinition fuel s ≠ .error .outOfFuel := by
  cases fuel with
  | zero => omega
  | succ fuel =>
    unfold parseVariableDefinition
    intro h
    rcases pbind_error.mp h with h1 | ⟨⟨tk1, s1⟩, he1, h⟩
    · obtain ⟨m, hm⟩ := eat_error_syntax h1
      simp at hm
    · dsimp only at h
      rcases pbind_error.mp h with h2 | ⟨⟨tk2, s2⟩, he2, h⟩
      · obtain ⟨m, hm⟩ := eat_error_syntax h2
        simp at hm
      · dsimp only at h
        rcases pbind_error.mp h with h3 | ⟨⟨tk3, s3⟩, he3, h⟩
        · obtain ⟨m, hm⟩ := eat_error_syntax h3
          simp at hm
        · dsimp only at h
          obtain ⟨hc1, _, hs1⟩ := eat_ok_elim he1
          obtain ⟨hc2, _, hs2⟩ := eat_ok_elim he2
          obtain ⟨hc3, _, hs3⟩ := eat_ok_elim he3
          have hlt1 := currentToken_some_lt hc1
          have hlt2 := currentToken_some_lt hc2
          have hlt3 := currentToken_some_lt hc3
          split at h
          · simp at h
          · split at h
            · simp at h
            · split at h
              · rcases pbind_error.mp h with h4 | ⟨⟨tk4, s4⟩, he4, h⟩
                · obtain ⟨m, hm⟩ := eat_error_syntax h4
                  simp at hm
                · dsimp only at h
                  rcases pbind_error.mp h with h5 | ⟨⟨ex, s5⟩, he5, h⟩
                  · refine parseExpression_fuel ?_ h5
                    obtain ⟨hc4, _, hs4⟩ := eat_ok_elim he4
                    have hlt4 := currentToken_some_lt hc4
                    subst hs4
                    subst hs3; subst hs2; subst hs1
                    simp only [bindVar, eatAdvance] at *
                    omega
                  · dsimp only at h
                    rcases pbind_error.mp h with h6 | ⟨⟨tk6, s6⟩, he6, h⟩
                    · obtain ⟨m, hm⟩ := eat_error_syntax h6
                      simp at hm
                    · simp at h
              · rcases pbind_error.mp h with h4 | ⟨⟨tk4, s4⟩, he4, h⟩
                · obtain ⟨m, hm⟩ := eat_error_syntax h4
                  simp at hm
                · simp at h

theorem pushScope_core {s : PState} : CorePost s (pushScope s) :=
  ⟨rfl, Nat.le.refl, fun h => h, fun h => h, fun _ hx => hx⟩

theorem popScope_core {s s' : PState} (h : popScope s = .ok s') : CorePost s s' := by
  obtain ⟨hs, _⟩ := popScope_ok h
  subst hs
  exact ⟨rfl, Nat.le.refl, fun h => h, fun h => h, fun _ hx => hx⟩

theorem master_post : ∀ fuel : Nat,
    (∀ s v s', parseStatementOrBlock fuel s = .ok (v, s') →
      CorePost s s' ∧ s.current < s'.current ∧
      s'.scopes.length = s.scopes.length ∧ s'.scopes.dropLast = s.scopes.dropLast) ∧
    (∀ s v s', parseBlock fuel s = .ok (v, s') →
      CorePost s s' ∧ s.current < s'.current ∧ s'.scopes = s.scopes) ∧
    (∀ children s v s', blockLoop fuel children s = .ok (v, s') →
      CorePost s s' ∧ s'.scopes.length = s.scopes.length ∧
      s'.scopes.dropLast = s.scopes.dropLast) ∧
    (∀ s v s', parseFunctionDefinition fuel s = .ok (v, s') →
      CorePost s s' ∧ s.current < s'.current ∧ s'.scopes = s.scopes) ∧
    (∀ s v s', parseIfConditional fuel s = .ok (v, s') →
      CorePost s s' ∧ s.current < s'.current ∧ s'.scopes = s.scopes) ∧
    (∀ s v s', parseForLoop fuel s = .ok (v, s') →
      CorePost s s' ∧ s.current < s'.current ∧
      s'.scopes.length = s.scopes.length ∧ s'.scopes.dropLast = s.scopes.dropLast) ∧
    (∀ children s v s', topLoop fuel children s = .ok (v, s') →
      CorePost s s' ∧ s'.scopes.length = s.scopes.length ∧
      s'.scopes.dropLast = s.scopes.dropLast) ∧
    (∀ s v s', parseProgram fuel s = .ok (v, s') →
      CorePost s s' ∧ s'.scopes.length = s.scopes.length ∧
      s'.scopes.dropLast = s.scopes.dropLast) := by
  intro fuel
  induction fuel with
  | zero =>
    refine ⟨?_, ?_, ?_, ?_, ?_, ?_, ?_, ?_⟩
    · intro s v s' h; exact absurd h (by simp [parseStatementOrBlock])
    · intro s v s' h; exact absurd h (by simp [parseBlock])
    · intro c s v s' h; exact absurd h (by simp [blockLoop])
    · intro s v s' h; exact absurd h (by simp [parseFunctionDefinition])
    · intro s v s' h; exact absurd h (by simp [parseIfConditional])
    · intro s v s' h; exact absurd h (by simp [parseForLoop])
    · intro c s v s' h; exact absurd h (by simp [topLoop])
    · intro s v s' h; exact absurd h (by simp [parseProgram])
  | succ fuel ih =>
    obtain ⟨ihS, ihB, ihL, ihF, ihI, ihR, ihT, ihP⟩ := ih
    refine ⟨?_, ?_, ?_, ?_, ?_, ?_, ?_, ?_⟩
    · -- parseStatementOrBlock
      intro s v s' h
      unfold parseStatementOrBlock at h
      split at h
      · exact absurd h (by simp)
      · split at h
        · obtain ⟨hp, hl, hsc⟩ := ihB _ _ _ h
          exact ⟨hp, hl, by rw [hsc], by rw [hsc]⟩
        · split at h
          · obtain ⟨hp, hl, hsc⟩ := ihF _ _ _ h
            exact ⟨hp, hl, by rw [hsc], by rw [hsc]⟩
          · split at h
            · exact parseVariableDefinition_post h
            · split at h
              · obtain ⟨hp, hl, hsc⟩ := ihI _ _ _ h
                exact ⟨hp, hl, by rw [hsc], by rw [hsc]⟩
              · split at h
                · exact ihR _ _ _ h
                · obtain ⟨hp, hl, hsc⟩ := parseGenericStatement_post h
                  exact ⟨hp, hl, by rw [hsc], by rw [hsc]⟩
    · -- parseBlock
      intro s v s' h
      unfold parseBlock at h
      obtain ⟨⟨tk1, s1⟩, he1, h⟩ := pbind_ok.mp h
      dsimp only at h
      obtain ⟨⟨cs, s2⟩, hb, h⟩ := pbind_ok.mp h
      dsimp only at h
      obtain ⟨s3, hpop, h⟩ := pbind_ok.mp h
      obtain ⟨⟨tk4, s4⟩, he4, h⟩ := pbind_ok.mp h
      dsimp only at h
      obtain ⟨_, hfin⟩ := Prod.mk.injEq .. |>.mp ((Except.ok.injEq _ _).mp h)
      subst hfin
      obtain ⟨hp1, hl1, hsc1⟩ := eat_post he1
      obtain ⟨hp2, hsl2, hsd2⟩ := ihL _ _ _ _ hb
      obtain ⟨hpop3, _⟩ := popScope_ok hpop
      obtain ⟨hp4, hl4, hsc4⟩ := eat_post he4
      have hps : (pushScope s1).scopes = s1.scopes ++ [[]] := rfl
      have hsc3 : s3.scopes = s1.scopes := by
        rw [hpop3]
        dsimp only
        rw [hsd2, hps, List.dropLast_concat]
      refine ⟨((hp1.comp pushScope_core).comp hp2).comp
        ((popScope_core hpop).comp hp4), ?_, ?_⟩
      · have h2 := hp2.current_mono
        have h4 := hp4.current_mono
        have hpc : (pushScope s1).current = s1.current := rfl
        have hc3 : s3.current = s2.current := by rw [hpop3]
        omega
      · rw [hsc4, hsc3, hsc1]
    · -- blockLoop
      intro children s v s' h
      unfold blockLoop at h
      split at h
      · obtain ⟨_, hfin⟩ := Prod.mk.injEq .. |>.mp ((Except.ok.injEq _ _).mp h)
        subst hfin
        exact ⟨CorePost.rfl, rfl, rfl⟩
      · split at h
        · obtain ⟨_, hfin⟩ := Prod.mk.injEq .. |>.mp ((Except.ok.injEq _ _).mp h)
          subst hfin
          exact ⟨CorePost.rfl, rfl, rfl⟩
        · obtain ⟨⟨child, s1⟩, hs1, h⟩ := pbind_ok.mp h
          dsimp only at h
          obtain ⟨hp1, _, hsl1, hsd1⟩ := ihS _ _ _ hs1
          obtain ⟨hp2, hsl2, hsd2⟩ := ihL _ _ _ _ h
          exact ⟨hp1.comp hp2, by rw [hsl2, hsl1], by rw [hsd2, hsd1]⟩
    · -- parseFunctionDefinition
      intro s v s' h
      unfold parseFunctionDefinition at h
      obtain ⟨⟨tk1, s1⟩, he1, h⟩ := pbind_ok.mp h
      dsimp only at h
      obtain ⟨⟨tk2, s2⟩, he2, h⟩ := pbind_ok.mp h
      dsimp only at h
      obtain ⟨⟨tk3, s3⟩, he3, h⟩ := pbind_ok.mp h
      dsimp only at h
      split at h
      · exact absurd h (by simp)
      · obtain ⟨⟨tk4, s4⟩, he4, h⟩ := pbind_ok.mp h
        dsimp only at h
        obtain ⟨⟨params, s5⟩, hpl, h⟩ := pbind_ok.mp h
        dsimp only at h
        obtain ⟨⟨tk6, s6⟩, he6, h⟩ := pbind_ok.mp h
        dsimp only at h
        obtain ⟨⟨tk7, s7⟩, he7, h⟩ := pbind_ok.mp h
        dsimp only at h
        obtain ⟨⟨body, s8⟩, hbl, h⟩ := pbind_ok.mp h
        dsimp only at h
        obtain ⟨s9, hpop, h⟩ := pbind_ok.mp h
        obtain ⟨_, hfin⟩ := Prod.mk.injEq .. |>.mp ((Except.ok.injEq _ _).mp h)
        subst hfin
        obtain ⟨hp1, hl1, hsc1⟩ := eat_post he1
        obtain ⟨hp2, hl2, hsc2⟩ := eat_post he2
        obtain ⟨hp3, hl3, hsc3⟩ := eat_post he3
        have hreg : CorePost s3 { s3 with
            definedFunctions := s3.definedFunctions ++ [tk3.value] } :=
          ⟨rfl, Nat.le.refl, fun h => h, fun h => h,
            fun x hx => List.mem_append_left _ hx⟩
        obtain ⟨hp4, hl4, hsc4⟩ := eat_post he4
        obtain ⟨hp5, hsl5, hsd5⟩ := paramsLoop_post hpl
        obtain ⟨hp6, hl6, hsc6⟩ := eat_post he6
        obtain ⟨hp7, hl7, hsc7⟩ := eat_post he7
        obtain ⟨hp8, hl8, hsc8⟩ := ihB _ _ _ hbl
        obtain ⟨hpop9, _⟩ := popScope_ok hpop
        obtain ⟨hp9⟩ := And.intro (popScope_core hpop) trivial
        have hsc9 : s9.scopes = s4.scopes := by
          rw [hpop9]
          dsimp only
          rw [hsc8, hsc7, hsc6, hsd5]
          have : (pushScope s4).scopes = s4.scopes ++ [[]] := rfl
          rw [this, List.dropLast_concat]
      

        refine ⟨(((hp1.comp hp2).comp hp3).comp ((hreg.comp hp4).comp
          (pushScope_core.comp hp5))).comp (((hp6.comp hp7).comp hp8).comp hp9), ?_, ?_⟩
        · have hc9 : s9.current = s8.current := by rw [hpop9]
          have hpc : (pushScope s4).current = s4.current := rfl
          have hrc : ({ s3 with definedFunctions := s3.definedFunctions ++ [tk3.value] } :
            PState).current = s3.current := rfl
          have := hp5.current_mono
          omega
        · rw [hsc9, hsc4]
          dsimp only
          rw [hsc3, hsc2, hsc1]
    · -- parseIfConditional
      intro s v s' h
      unfold parseIfConditional at h
      obtain ⟨⟨tk1, s1⟩, he1, h⟩ := pbind_ok.mp h
      dsimp only at h
      obtain ⟨⟨tk2, s2⟩, he2, h⟩ := pbind_ok.mp h
      dsimp only at h
      obtain ⟨⟨cond, s3⟩, hex, h⟩ := pbind_ok.mp h
      dsimp only at h
      obtain ⟨⟨tk4, s4⟩, he4, h⟩ := pbind_ok.mp h
      dsimp only at h
      obtain ⟨⟨tk5, s5⟩, he5, h⟩ := pbind_ok.mp h
      dsimp only at h
      obtain ⟨⟨thenB, s6⟩, hb6, h⟩ := pbind_ok.mp h
      dsimp only at h
      obtain ⟨hp1, hl1, hsc1⟩ := eat_post he1
      obtain ⟨hp2, hl2, hsc2⟩ := eat_post he2
      obtain ⟨hp3, hsc3⟩ := parseExpression_post hex
      obtain ⟨hp4, hl4, hsc4⟩ := eat_post he4
      obtain ⟨hp5, hl5, hsc5⟩ := eat_post he5
      obtain ⟨hp6, hl6, hsc6⟩ := ihB _ _ _ hb6
      have hm3 := hp3.current_mono
      split at h
      · obtain ⟨⟨tk7, s7⟩, he7, h⟩ := pbind_ok.mp h
        dsimp only at h
        obtain ⟨⟨elseB, s8⟩, hb8, h⟩ := pbind_ok.mp h
        dsimp only at h
        obtain ⟨_, hfin⟩ := Prod.mk.injEq .. |>.mp ((Except.ok.injEq _ _).mp h)
        subst hfin
        obtain ⟨hp7, hl7, hsc7⟩ := eat_post he7
        obtain ⟨hp8, hl8, hsc8⟩ := ihB _ _ _ hb8
        refine ⟨(((hp1.comp hp2).comp hp3).comp ((hp4.comp hp5).comp hp6)).comp
          (hp7.comp hp8), by omega, ?_⟩
        rw [hsc8, hsc7, hsc6, hsc5, hsc4, hsc3, hsc2, hsc1]
      · obtain ⟨_, hfin⟩ := Prod.mk.injEq .. |>.mp ((Except.ok.injEq _ _).mp h)
        subst hfin
        refine ⟨((hp1.comp hp2).comp hp3).comp ((hp4.comp hp5).comp hp6), by omega, ?_⟩
        rw [hsc6, hsc5, hsc4, hsc3, hsc2, hsc1]
    · -- parseForLoop
      intro s v s' h
      unfold parseForLoop at h
      obtain ⟨⟨tk1, s1⟩, he1, h⟩ := pbind_ok.mp h
      dsimp only at h
      obtain ⟨⟨tk2, s2⟩, he2, h⟩ := pbind_ok.mp h
      dsimp only at h
      split at h
      · exact absurd h (by simp)
      · split at h
        · obtain ⟨⟨initN, s3⟩, hvd, h⟩ := pbind_ok.mp h
          dsimp only at h
          obtain ⟨⟨condT, s4⟩, hsc, h⟩ := pbind_ok.mp h
          dsimp only at h
          obtain ⟨⟨tk5, s5⟩, he5, h⟩ := pbind_ok.mp h
          dsimp only at h
          obtain ⟨⟨incT, s6⟩, hsi, h⟩ := pbind_ok.mp h
          dsimp only at h
          obtain ⟨⟨tk7, s7⟩, he7, h⟩ := pbind_ok.mp h
          dsimp only at h
          obtain ⟨⟨tk8, s8⟩, he8, h⟩ := pbind_ok.mp h
          dsimp only at h
          obtain ⟨⟨body, s9⟩, hb9, h⟩ := pbind_ok.mp h
          dsimp only at h
          obtain ⟨_, hfin⟩ := Prod.mk.injEq .. |>.mp ((Except.ok.injEq _ _).mp h)
          subst hfin
          obtain ⟨hp1, hl1, hsc1⟩ := eat_post he1
          obtain ⟨hp2, hl2, hsc2⟩ := eat_post he2
          obtain ⟨hp3, hl3, hsl3, hsd3⟩ := parseVariableDefinition_post hvd
          obtain ⟨hp4, hsc4⟩ := scanUntil_post hsc
          obtain ⟨hp5, hl5, hsc5⟩ := eat_post he5
          obtain ⟨hp6, hsc6⟩ := scanUntil_post hsi
          obtain ⟨hp7, hl7, hsc7⟩ := eat_post he7
          obtain ⟨hp8, hl8, hsc8⟩ := eat_post he8
          obtain ⟨hp9, hl9, hsc9⟩ := ihB _ _ _ hb9
          have hm4 := hp4.current_mono
          have hm6 := hp6.current_mono
          refine ⟨((((hp1.comp hp2).comp hp3).comp ((hp4.comp hp5).comp hp6)).comp
            (((hp7.comp hp8).comp hp9))), by omega, ?_, ?_⟩
          · rw [hsc9, hsc8, hsc7, hsc6, hsc5, hsc4, hsl3, hsc2, hsc1]
          · rw [hsc9, hsc8, hsc7, hsc6, hsc5, hsc4, hsd3, hsc2, hsc1]
        · exact absurd h (by simp)
    · -- topLoop
      intro children s v s' h
      unfold topLoop at h
      split at h
      · obtain ⟨_, hfin⟩ := Prod.mk.injEq .. |>.mp ((Except.ok.injEq _ _).mp h)
        subst hfin
        exact ⟨CorePost.rfl, rfl, rfl⟩
      · split at h
        · obtain ⟨_, hfin⟩ := Prod.mk.injEq .. |>.mp ((Except.ok.injEq _ _).mp h)
          subst hfin
          exact ⟨CorePost.rfl, rfl, rfl⟩
        · obtain ⟨⟨child, s1⟩, hs1, h⟩ := pbind_ok.mp h
          dsimp only at h
          obtain ⟨hp1, _, hsl1, hsd1⟩ := ihS _ _ _ hs1
          obtain ⟨hp2, hsl2, hsd2⟩ := ihT _ _ _ _ h
          exact ⟨hp1.comp hp2, by rw [hsl2, hsl1], by rw [hsd2, hsd1]⟩
    · -- parseProgram
      intro s v s' h
      unfold parseProgram at h
      obtain ⟨⟨tk1, s1⟩, he1, h⟩ := pbind_ok.mp h
      dsimp only at h
      obtain ⟨⟨cs, s2⟩, htl, h⟩ := pbind_ok.mp h
      dsimp only at h
      obtain ⟨⟨tk3, s3⟩, he3, h⟩ := pbind_ok.mp h
      dsimp only at h
      split at h
      · exact absurd h (by simp)
      · obtain ⟨_, hfin⟩ := Prod.mk.injEq .. |>.mp ((Except.ok.injEq _ _).mp h)
        subst hfin
        obtain ⟨hp1, hl1, hsc1⟩ := eat_post he1
        obtain ⟨hp2, hsl2, hsd2⟩ := ihT _ _ _ _ htl
        obtain ⟨hp3, hl3, hsc3⟩ := eat_post he3
        exact ⟨(hp1.comp hp2).comp hp3, by rw [hsc3, hsl2, hsc1],
          by rw [hsc3, hsd2, hsc1]⟩

theorem popScope_error {s : PState} {e : PError} (h : popScope s = .error e) :
    e = .crash indexErrMsg := by
  unfold popScope at h
  split at h
  · exact ((Except.error.injEq _ _).mp h).symm
  · simp at h

theorem parseGenericStatement_error {s : PState} {e : PError}
    (h : parseGenericStatement s = .error e) : e ≠ .outOfFuel := by
  unfold parseGenericStatement at h
  split at h
  · intro he; subst he; simp at h
  · split at h
    · rcases pbind_error.mp h with h1 | ⟨⟨tk1, s1⟩, he1, h⟩
      · obtain ⟨m, hm⟩ := eat_error_syntax h1
        subst hm; simp
      · dsimp only at h
        rcases pbind_error.mp h with h2 | ⟨⟨tk2, s2⟩, he2, h⟩
        · obtain ⟨m, hm⟩ := eat_error_syntax h2
          subst hm; simp
        · dsimp only at h
          split at h
          · rcases pbind_error.mp h with h3 | ⟨⟨tk3, s3⟩, he3, h⟩
            · obtain ⟨m, hm⟩ := eat_error_syntax h3
              subst hm; simp
            · simp at h
          · replace h := ((Except.error.injEq _ _).mp h).symm
            subst h; simp
    · simp at h

theorem eat_ok_nums {k : String} {s : PState} {tk : Token} {s' : PState}
    (h : eat k s = .ok (tk, s')) :
    s'.tokens = s.tokens ∧ s'.current = s.current + 1 ∧
    s.current < s.tokens.length := by
  obtain ⟨hc, _, hs⟩ := eat_ok_elim h
  subst hs
  exact ⟨rfl, rfl, currentToken_some_lt hc⟩

theorem master_fuel : ∀ fuel : Nat,
    (∀ s, 3 * (s.tokens.length - s.current) + 4 ≤ fuel →
      parseStatementOrBlock fuel s ≠ .error .outOfFuel) ∧
    (∀ s, 3 * (s.tokens.length - s.current) + 3 ≤ fuel →
      parseBlock fuel s ≠ .error .outOfFuel) ∧
    (∀ children s, 3 * (s.tokens.length - s.current) + 5 ≤ fuel →
      blockLoop fuel children s ≠ .error .outOfFuel) ∧
    (∀ s, 3 * (s.tokens.length - s.current) + 3 ≤ fuel →
      parseFunctionDefinition fuel s ≠ .error .outOfFuel) ∧
    (∀ s, 3 * (s.tokens.length - s.current) + 3 ≤ fuel →
      parseIfConditional fuel s ≠ .error .outOfFuel) ∧
    (∀ s, 3 * (s.tokens.length - s.current) + 3 ≤ fuel →
      parseForLoop fuel s ≠ .error .outOfFuel) ∧
    (∀ children s, 3 * (s.tokens.length - s.current) + 5 ≤ fuel →
      topLoop fuel children s ≠ .error .outOfFuel) ∧
    (∀ s, 3 * (s.tokens.length - s.current) + 3 ≤ fuel →
      parseProgram fuel s ≠ .error .outOfFuel) := by
  intro fuel
  induction fuel with
  | zero =>
    refine ⟨?_, ?_, ?_, ?_, ?_, ?_, ?_, ?_⟩ <;> intros <;> omega
  | succ fuel ih =>
    obtain ⟨ihS, ihB, ihL, ihF, ihI, ihR, ihT, ihP⟩ := ih
    refine ⟨?_, ?_, ?_, ?_, ?_, ?_, ?_, ?_⟩
    · -- parseStatementOrBlock
      intro s hf
      unfold parseStatementOrBlock
      split
      · simp
      · split
        · exact ihB _ (by omega)
        · split
          · exact ihF _ (by omega)
          · split
            · exact parseVariableDefinition_fuel (by omega)
            · split
              · exact ihI _ (by omega)
              · split
                · exact ihR _ (by omega)
                · intro h
                  cases hsplit : parseGenericStatement s with
                  | ok a => rw [hsplit] at h; simp at h
                  | error e =>
                    rw [hsplit] at h
                    exact parseGenericStatement_error hsplit
                      ((Except.error.injEq _ _).mp h)
    · -- parseBlock
      intro s hf
      unfold parseBlock
      intro h
      rcases pbind_error.mp h with h1 | ⟨⟨tk1, s1⟩, he1, h⟩
      · obtain ⟨m, hm⟩ := eat_error_syntax h1
        simp at hm
      · dsimp only at h
        obtain ⟨ht1, hn1, hlt1⟩ := eat_ok_nums he1
        rcases pbind_error.mp h with h2 | ⟨⟨cs, s2⟩, hl2, h⟩
        · refine ihL _ _ ?_ h2
          have ha : (pushScope s1).tokens = s1.tokens := rfl
          have hb : (pushScope s1).current = s1.current := rfl
          rw [ha, hb, ht1, hn1]
          omega
        · rcases pbind_error.mp h with h3 | ⟨s3, hpop, h⟩
          · have := popScope_error h3
            simp at this
          · rcases pbind_error.mp h with h4 | ⟨⟨tk4, s4⟩, he4, h⟩
            · obtain ⟨m, hm⟩ := eat_error_syntax h4
              simp at hm
            · simp at h
    · -- blockLoop
      intro children s hf
      unfold blockLoop
      split
      · simp
      · rename_i token hc
        split
        · simp
        · have hlt := currentToken_some_lt hc
          intro h
          rcases pbind_error.mp h with h1 | ⟨⟨child, s1⟩, hs1, h⟩
          · exact ihS _ (by omega) h1
          · dsimp only at h
            obtain ⟨hp1, hm1, _, _⟩ := (master_post fuel).1 _ _ _ hs1
            have htk := hp1.tokens_eq
            refine ihL _ _ ?_ h
            rw [htk]
            omega
    · -- parseFunctionDefinition
      intro s hf
      unfold parseFunctionDefinition
      intro h
      rcases pbind_error.mp h with h1 | ⟨⟨tk1, s1⟩, he1, h⟩
      · obtain ⟨m, hm⟩ := eat_error_syntax h1
        simp at hm
      · dsimp only at h
        rcases pbind_error.mp h with h2 | ⟨⟨tk2, s2⟩, he2, h⟩
        · obtain ⟨m, hm⟩ := eat_error_syntax h2
          simp at hm
        · dsimp only at h
          rcases pbind_error.mp h with h3 | ⟨⟨tk3, s3⟩, he3, h⟩
          · obtain ⟨m, hm⟩ := eat_error_syntax h3
            simp at hm
          · dsimp only at h
            obtain ⟨ht1, hn1, hlt1⟩ := eat_ok_nums he1
            obtain ⟨ht2, hn2, hlt2⟩ := eat_ok_nums he2
            obtain ⟨ht3, hn3, hlt3⟩ := eat_ok_nums he3
            split at h
            · simp at h
            · rcases pbind_error.mp h with h4 | ⟨⟨tk4, s4⟩, he4, h⟩
              · obtain ⟨m, hm⟩ := eat_error_syntax h4
                simp at hm
              · dsimp only at h
                obtain ⟨ht4, hn4, hlt4⟩ := eat_ok_nums he4
                have hreg : ({ s3 with definedFunctions :=
                    s3.definedFunctions ++ [tk3.value] } : PState).tokens = s3.tokens ∧
                    ({ s3 with definedFunctions :=
                    s3.definedFunctions ++ [tk3.value] } : PState).current = s3.current :=
                  ⟨rfl, rfl⟩
                rcases pbind_error.mp h with h5 | ⟨⟨params, s5⟩, hpl, h⟩
                · refine paramsLoop_fuel ?_ h5
                  have ha : ∀ u : PState, (pushScope u).tokens = u.tokens := fun _ => rfl
                  have hb : ∀ u : PState, (pushScope u).current = u.current := fun _ => rfl
                  rw [ha, hb, ht4, hn4, hreg.1, hreg.2, ht3, hn3, ht2, hn2, ht1, hn1]
                  rw [hreg.1, hreg.2, ht3, hn3, ht2, hn2, ht1, hn1] at hlt4
                  omega
                · dsimp only at h
                  obtain ⟨hp5, _, _⟩ := paramsLoop_post hpl
                  have hm5 := hp5.current_mono
                  have ht5 := hp5.tokens_eq
                  have ha : (pushScope s4).tokens = s4.tokens := rfl
                  have hb : (pushScope s4).current = s4.current := rfl
                  rw [ha] at ht5
                  rw [hb] at hm5
                  rcases pbind_error.mp h with h6 | ⟨⟨tk6, s6⟩, he6, h⟩
                  · obtain ⟨m, hm⟩ := eat_error_syntax h6
                    simp at hm
                  · dsimp only at h
                    obtain ⟨ht6, hn6, hlt6⟩ := eat_ok_nums he6
                    rcases pbind_error.mp h with h7 | ⟨⟨tk7, s7⟩, he7, h⟩
                    · obtain ⟨m, hm⟩ := eat_error_syntax h7
                      simp at hm
                    · dsimp only at h
                      obtain ⟨ht7, hn7, hlt7⟩ := eat_ok_nums he7
                      rcases pbind_error.mp h with h8 | ⟨⟨body, s8⟩, hbl, h⟩
                      · refine ihB _ ?_ h8
                        rw [ht7, hn7, ht6, hn6, ht5, ht4, hn4, hreg.1, hreg.2,
                          ht3, hn3, ht2, hn2, ht1, hn1] at *
                        omega
                      · dsimp only at h
                        rcases pbind_error.mp h with h9 | ⟨s9, hpop, h⟩
                        · have := popScope_error h9
                          simp at this
                        · simp at h
    · -- parseIfConditional
      intro s hf
      unfold parseIfConditional
      intro h
      rcases pbind_error.mp h with h1 | ⟨⟨tk1, s1⟩, he1, h⟩
      · obtain ⟨m, hm⟩ := eat_error_syntax h1
        simp at hm
      · dsimp only at h
        rcases pbind_error.mp h with h2 | ⟨⟨tk2, s2⟩, he2, h⟩
        · obtain ⟨m, hm⟩ := eat_error_syntax h2
          simp at hm
        · dsimp only at h
          obtain ⟨ht1, hn1, hlt1⟩ := eat_ok_nums he1
          obtain ⟨ht2, hn2, hlt2⟩ := eat_ok_nums he2
          rcases pbind_error.mp h with h3 | ⟨⟨cond, s3⟩, hex, h⟩
          · refine parseExpression_fuel ?_ h3
            rw [ht2, hn2, ht1, hn1]
            rw [ht1, hn1] at hlt2
            omega
          · dsimp only at h
            obtain ⟨hp3, _⟩ := parseExpression_post hex
            have hm3 := hp3.current_mono
            have ht3 := hp3.tokens_eq
            rcases pbind_error.mp h with h4 | ⟨⟨tk4, s4⟩, he4, h⟩
            · obtain ⟨m, hm⟩ := eat_error_syntax h4
              simp at hm
            · dsimp only at h
              obtain ⟨ht4, hn4, hlt4⟩ := eat_ok_nums he4
              rcases pbind_error.mp h with h5 | ⟨⟨tk5, s5⟩, he5, h⟩
              · obtain ⟨m, hm⟩ := eat_error_syntax h5
                simp at hm
              · dsimp only at h
                obtain ⟨ht5, hn5, hlt5⟩ := eat_ok_nums he5
                rcases pbind_error.mp h with h6 | ⟨⟨thenB, s6⟩, hb6, h⟩
                · refine ihB _ ?_ h6
                  rw [ht5, hn5, ht4, hn4, ht3, ht2, hn2, ht1, hn1] at *
                  omega
                · dsimp only at h
                  obtain ⟨hp6, hm6, _⟩ := (master_post fuel).2.1 _ _ _ hb6
                  have ht6 := hp6.tokens_eq
                  split at h
                  · rcases pbind_error.mp h with h7 | ⟨⟨tk7, s7⟩, he7, h⟩
                    · obtain ⟨m, hm⟩ := eat_error_syntax h7
                      simp at hm
                    · dsimp only at h
                      obtain ⟨ht7, hn7, hlt7⟩ := eat_ok_nums he7
                      rcases pbind_error.mp h with h8 | ⟨⟨elseB, s8⟩, hb8, h⟩
                      · refine ihB _ ?_ h8
                        rw [ht7, hn7, ht6, ht5, hn5, ht4, hn4, ht3, ht2, hn2,
                          ht1, hn1] at *
                        omega
                      · simp at h
                  · simp at h
    · -- parseForLoop
      intro s hf
      unfold parseForLoop
      intro h
      rcases pbind_error.mp h with h1 | ⟨⟨tk1, s1⟩, he1, h⟩
      · obtain ⟨m, hm⟩ := eat_error_syntax h1
        simp at hm
      · dsimp only at h
        rcases pbind_error.mp h with h2 | ⟨⟨tk2, s2⟩, he2, h⟩
        · obtain ⟨m, hm⟩ := eat_error_syntax h2
          simp at hm
        · dsimp only at h
          obtain ⟨ht1, hn1, hlt1⟩ := eat_ok_nums he1
          obtain ⟨ht2, hn2, hlt2⟩ := eat_ok_nums he2
          split at h
          · simp at h
          · split at h
            · rcases pbind_error.mp h with h3 | ⟨⟨initN, s3⟩, hvd, h⟩
              · refine parseVariableDefinition_fuel ?_ h3
                rw [ht2, hn2, ht1, hn1]
                rw [ht1, hn1] at hlt2
                omega
              · dsimp only at h
                obtain ⟨hp3, hm3, _, _⟩ := parseVariableDefinition_post hvd
                have ht3 := hp3.tokens_eq
                rcases pbind_error.mp h with h4 | ⟨⟨condT, s4⟩, hsc, h⟩
                · refine scanUntil_fuel ?_ h4
                  rw [ht3, ht2, hn2, ht1, hn1] at *
                  omega
                · dsimp only at h
                  obtain ⟨hp4, _⟩ := scanUntil_post hsc
                  have hm4 := hp4.current_mono
                  have ht4 := hp4.tokens_eq
                  rcases pbind_error.mp h with h5 | ⟨⟨tk5, s5⟩, he5, h⟩
                  · obtain ⟨m, hm⟩ := eat_error_syntax h5
                    simp at hm
                  · dsimp only at h
                    obtain ⟨ht5, hn5, hlt5⟩ := eat_ok_nums he5
                    rcases pbind_error.mp h with h6 | ⟨⟨incT, s6⟩, hsi, h⟩
                    · refine scanUntil_fuel ?_ h6
                      rw [ht5, hn5, ht4, ht3, ht2, hn2, ht1, hn1] at *
                      omega
                    · dsimp only at h
                      obtain ⟨hp6, _⟩ := scanUntil_post hsi
                      have hm6 := hp6.current_mono
                      have ht6 := hp6.tokens_eq
                      rcases pbind_error.mp h with h7 | ⟨⟨tk7, s7⟩, he7, h⟩
                      · obtain ⟨m, hm⟩ := eat_error_syntax h7
                        simp at hm
                      · dsimp only at h
                        obtain ⟨ht7, hn7, hlt7⟩ := eat_ok_nums he7
                        rcases pbind_error.mp h with h8 | ⟨⟨tk8, s8⟩, he8, h⟩
                        · obtain ⟨m, hm⟩ := eat_error_syntax h8
                          simp at hm
                        · dsimp only at h
                          obtain ⟨ht8, hn8, hlt8⟩ := eat_ok_nums he8
                          rcases pbind_error.mp h with h9 | ⟨⟨body, s9⟩, hb9, h⟩
                          · refine ihB _ ?_ h9
                            rw [ht8, hn8, ht7, hn7, ht6, ht5, hn5, ht4, ht3,
                              ht2, hn2, ht1, hn1] at *
                            omega
                          · simp at h
            · simp at h
    · -- topLoop
      intro children s hf
      unfold topLoop
      split
      · simp
      · rename_i token hc
        split
        · simp
        · have hlt := currentToken_some_lt hc
          intro h
          rcases pbind_error.mp h with h1 | ⟨⟨child, s1⟩, hs1, h⟩
          · exact ihS _ (by omega) h1
          · dsimp only at h
            obtain ⟨hp1, hm1, _, _⟩ := (master_post fuel).1 _ _ _ hs1
            have htk := hp1.tokens_eq
            refine ihT _ _ ?_ h
            rw [htk]
            omega
    · -- parseProgram
      intro s hf
      unfold parseProgram
      intro h
      rcases pbind_error.mp h with h1 | ⟨⟨tk1, s1⟩, he1, h⟩
      · obtain ⟨m, hm⟩ := eat_error_syntax h1
        simp at hm
      · dsimp only at h
        obtain ⟨ht1, hn1, hlt1⟩ := eat_ok_nums he1
        rcases pbind_error.mp h with h2 | ⟨⟨cs, s2⟩, htl, h⟩
        · refine ihT _ _ ?_ h2
          rw [ht1, hn1]
          omega
        · dsimp only at h
          rcases pbind_error.mp h with h3 | ⟨⟨tk3, s3⟩, he3, h⟩
          · obtain ⟨m, hm⟩ := eat_error_syntax h3
            simp at hm
          · dsimp only at h
            split at h
            · simp at h
            · simp at h

theorem pbind_ok_apply {α β : Type} (a : α) (f : α → Except PError β) :
    ((Except.ok a : Except PError α) >>= f) = f a := rfl

theorem currentToken_ext {s : PState} {suf : List Token} {t : Token}
    (h : currentToken s = some t) : currentToken (extState s suf) = some t := by
  have hlt := currentToken_some_lt h
  unfold currentToken extState at *
  dsimp only
  rw [List.getElem?_append_left hlt]
  exact h

theorem currentToken_ext_lt {s : PState} {suf : List Token}
    (h : s.current < s.tokens.length) :
    currentToken (extState s suf) = currentToken s := by
  unfold currentToken extState
  dsimp only
  exact List.getElem?_append_left h

theorem eat_ext {k : String} {s : PState} {tk : Token} {s' : PState}
    (suf : List Token) (h : eat k s = .ok (tk, s')) :
    eat k (extState s suf) = .ok (tk, extState s' suf) := by
  obtain ⟨hc, ht, hs⟩ := eat_ok_elim h
  subst hs
  unfold eat
  rw [currentToken_ext hc]
  simp only [ht, if_true]
  rfl

theorem popScope_ext {s s' : PState} (suf : List Token) (h : popScope s = .ok s') :
    popScope (extState s suf) = .ok (extState s' suf) := by
  obtain ⟨hs, hne⟩ := popScope_ok h
  subst hs
  unfold popScope at *
  split at h
  · simp at h
  · rename_i hq
    have : (extState s suf).scopes.isEmpty = false := by
      simpa [extState] using hq
    rw [this]
    rfl

theorem exprLoop_ext {fuel : Nat} : ∀ {fuel' : Nat} {acc : String} {s : PState}
    {v : String} {s' : PState} (suf : List Token), fuel ≤ fuel' →
    exprLoop fuel acc s = .ok (v, s') → s'.current < s.tokens.length →
    exprLoop fuel' acc (extState s suf) = .ok (v, extState s' suf) := by
  induction fuel with
  | zero =>
    intro fuel' acc s v s' suf hle h hcur
    exact absurd h (by simp [exprLoop])
  | succ fuel ih =>
    intro fuel' acc s v s' suf hle h hcur
    cases fuel' with
    | zero => omega
    | succ fuel' =>
      unfold exprLoop at h ⊢
      split at h
      · rename_i hc
        obtain ⟨hv, hfin⟩ := Prod.mk.injEq .. |>.mp ((Except.ok.injEq _ _).mp h)
        subst hfin
        have : currentToken s ≠ none := by
          unfold currentToken
          rw [List.getElem?_eq_some.mpr ⟨hcur, rfl⟩]
          simp
        exact absurd hc this
      · rename_i token hc
        split at h
        · rename_i hterm
          obtain ⟨hv, hfin⟩ := Prod.mk.injEq .. |>.mp ((Except.ok.injEq _ _).mp h)
          subst hfin; subst hv
          rw [currentToken_ext hc]
          simp only [hterm, if_true]
        · rename_i hterm
          rw [currentToken_ext hc]
          simp only [hterm, if_false]
          have hrec := ih suf (Nat.succ_le_succ_iff.mp hle) h
            (by simpa [advance] using hcur)
          have hadv : extState (advance s) suf = advance (extState s suf) := rfl
          rw [hadv] at hrec
          exact hrec

theorem scanUntil_ext {fuel : Nat} : ∀ {fuel' : Nat} {term acc : String} {s : PState}
    {v : String} {s' : PState} (suf : List Token), fuel ≤ fuel' →
    scanUntil fuel term acc s = .ok (v, s') → s'.current < s.tokens.length →
    scanUntil fuel' term acc (extState s suf) = .ok (v, extState s' suf) := by
  induction fuel with
  | zero =>
    intro fuel' term acc s v s' suf hle h hcur
    exact absurd h (by simp [scanUntil])
  | succ fuel ih =>
    intro fuel' term acc s v s' suf hle h hcur
    cases fuel' with
    | zero => omega
    | succ fuel' =>
      unfold scanUntil at h ⊢
      split at h
      · rename_i hc
        obtain ⟨hv, hfin⟩ := Prod.mk.injEq .. |>.mp ((Except.ok.injEq _ _).mp h)
        subst hfin
        have : currentToken s ≠ none := by
          unfold currentToken
          rw [List.getElem?_eq_some.mpr ⟨hcur, rfl⟩]
          simp
        exact absurd hc this
      · rename_i token hc
        split at h
        · rename_i hterm
          obtain ⟨hv, hfin⟩ := Prod.mk.injEq .. |>.mp ((Except.ok.injEq _ _).mp h)
          subst hfin; subst hv
          rw [currentToken_ext hc]
          simp only [hterm, if_true]
        · rename_i hterm
          split at h
          · exact absurd h (by simp)
          · rename_i hid
            rw [currentToken_ext hc]
            simp only [hterm, if_false]
            have hide : (extState s suf).scopes = s.scopes := rfl
            rw [if_neg (by simpa [isVariableDefined, extState] using hid)]
            have hrec := ih suf (Nat.succ_le_succ_iff.mp hle) h
              (by simpa [advance] using hcur)
            have hadv : extState (advance s) suf = advance (extState s suf) := rfl
            rw [hadv] at hrec
            exact hrec

theorem extState_scopes (s : PState) (suf : List Token) :
    (extState s suf).scopes = s.scopes := rfl

theorem parseExpression_ext {fuel fuel' : Nat} {s : PState} {v : Node} {s' : PState}
    (suf : List Token) (hle : fuel ≤ fuel') (h : parseExpression fuel s = .ok (v, s'))
    (hcur : s'.current < s.tokens.length) :
    parseExpression fuel' (extState s suf) = .ok (v, extState s' suf) := by
  cases fuel with
  | zero => exact absurd h (by simp [parseExpression])
  | succ fuel =>
    cases fuel' with
    | zero => omega
    | succ fuel' =>
      unfold parseExpression at h
      simp only [parseExpression]
      obtain ⟨⟨v1, s1⟩, he1, h⟩ := pbind_ok.mp h
      dsimp only at h
      obtain ⟨hv, hfin⟩ := Prod.mk.injEq .. |>.mp ((Except.ok.injEq _ _).mp h)
      subst hfin
      rw [exprLoop_ext suf (Nat.succ_le_succ_iff.mp hle) he1 hcur, pbind_ok_apply]
      dsimp only
      rw [hv]

theorem paramsLoop_ext {fuel : Nat} : ∀ {fuel' : Nat} {children : List Node}
    {s : PState} {v : List Node} {s' : PState} (suf : List Token), fuel ≤ fuel' →
    paramsLoop fuel children s = .ok (v, s') → s'.current < s.tokens.length →
    paramsLoop fuel' children (extState s suf) = .ok (v, extState s' suf) := by
  induction fuel with
  | zero =>
    intro fuel' children s v s' suf hle h hcur
    exact absurd h (by simp [paramsLoop])
  | succ fuel ih =>
    intro fuel' children s v s' suf hle h hcur
    cases fuel' with
    | zero => omega
    | succ fuel' =>
      unfold paramsLoop at h ⊢
      split at h
      · rename_i hc
        obtain ⟨hv, hfin⟩ := Prod.mk.injEq .. |>.mp ((Except.ok.injEq _ _).mp h)
        subst hfin
        have : currentToken s ≠ none := by
          unfold currentToken
          rw [List.getElem?_eq_some.mpr ⟨hcur, rfl⟩]
          simp
        exact absurd hc this
      · rename_i token hc
        split at h
        · rename_i hterm
          obtain ⟨hv, hfin⟩ := Prod.mk.injEq .. |>.mp ((Except.ok.injEq _ _).mp h)
          subst hfin; subst hv
          rw [currentToken_ext hc]
          simp only [hterm, if_true]
        · rename_i hterm
          obtain ⟨⟨tk1, s1⟩, he1, h⟩ := pbind_ok.mp h
          dsimp only at h
          obtain ⟨⟨tk2, s2⟩, he2, h⟩ := pbind_ok.mp h
          dsimp only at h
          rw [currentToken_ext hc]
          simp only [hterm, if_false]
          rw [eat_ext suf he1, pbind_ok_apply]
          dsimp only
          rw [eat_ext suf he2, pbind_ok_apply]
          dsimp only
          split at h
          · exact absurd h (by simp)
          · rename_i frame hg
            rw [extState_scopes, hg]
            split at h
            · exact absurd h (by simp)
            · rename_i hfh
              simp only [hfh, if_false]
              have hbv : bindVar tk2.value tk1.value (extState s2 suf) =
                extState (bindVar tk2.value tk1.value s2) suf := rfl
              rw [hbv]
              have hcur2 : s'.current < (bindVar tk2.value tk1.value s2).tokens.length := by
                have h1 := (eat_ok_nums he1).1
                have h2 := (eat_ok_nums he2).1
                have hb : (bindVar tk2.value tk1.value s2).tokens = s2.tokens := rfl
                rw [hb, h2, h1]
                exact hcur
              exact ih suf (Nat.succ_le_succ_iff.mp hle) h hcur2

theorem parseGenericStatement_ext {s : PState} {v : Node} {s' : PState}
    (suf : List Token) (h : parseGenericStatement s = .ok (v, s')) :
    parseGenericStatement (extState s suf) = .ok (v, extState s' suf) := by
  unfold parseGenericStatement at h ⊢
  split at h
  · exact absurd h (by simp)
  · rename_i token hc
    rw [currentToken_ext hc]
    split at h
    · rename_i hret
      simp only [hret, if_true]
      obtain ⟨⟨tk1, s1⟩, he1, h⟩ := pbind_ok.mp h
      dsimp only at h
      obtain ⟨⟨tk2, s2⟩, he2, h⟩ := pbind_ok.mp h
      dsimp only at h
      rw [eat_ext suf he1, pbind_ok_apply]
      dsimp only
      rw [eat_ext suf he2, pbind_ok_apply]
      dsimp only
      split at h
      · rename_i hdef
        rw [if_pos (by simpa [isVariableDefined, extState] using hdef)]
        obtain ⟨⟨tk3, s3⟩, he3, h⟩ := pbind_ok.mp h
        dsimp only at h
        rw [eat_ext suf he3, pbind_ok_apply]
        dsimp only
        obtain ⟨hv, hfin⟩ := Prod.mk.injEq .. |>.mp ((Except.ok.injEq _ _).mp h)
        subst hfin
        rw [hv]
      · exact absurd h (by simp)
    · rename_i hret
      simp only [hret, if_false]
      obtain ⟨hv, hfin⟩ := Prod.mk.injEq .. |>.mp ((Except.ok.injEq _ _).mp h)
      subst hfin
      rw [hv]
      rfl

theorem parseVariableDefinition_ext {fuel fuel' : Nat} {s : PState} {v : Node}
    {s' : PState} (suf : List Token) (hle : fuel ≤ fuel')
    (h : parseVariableDefinition fuel s = .ok (v, s')) :
    parseVariableDefinition fuel' (extState s suf) = .ok (v, extState s' suf) := by
  cases fuel with
  | zero => exact absurd h (by simp [parseVariableDefinition])
  | succ fuel =>
    cases fuel' with
    | zero => omega
    | succ fuel' =>
      unfold parseVariableDefinition at h
      simp only [parseVariableDefinition]
      obtain ⟨⟨tk1, s1⟩, he1, h⟩ := pbind_ok.mp h
      dsimp only at h
      obtain ⟨⟨tk2, s2⟩, he2, h⟩ := pbind_ok.mp h
      dsimp only at h
      obtain ⟨⟨tk3, s3⟩, he3, h⟩ := pbind_ok.mp h
      dsimp only at h
      rw [eat_ext suf he1, pbind_ok_apply]
      dsimp only
      rw [eat_ext suf he2, pbind_ok_apply]
      dsimp only
      rw [eat_ext suf he3, pbind_ok_apply]
      dsimp only
      split at h
      · exact absurd h (by simp)
      · rename_i frame hg
        rw [extState_scopes, hg]
        split at h
        · exact absurd h (by simp)
        · rename_i hfh
          simp only [hfh, if_false]
          have hbv : bindVar tk3.value tk2.value (extState s3 suf) =
            extState (bindVar tk3.value tk2.value s3) suf := rfl
          rw [hbv]
          split at h
          · rename_i hisk
            obtain ⟨⟨tk4, s4⟩, he4, h⟩ := pbind_ok.mp h
            dsimp only at h
            obtain ⟨⟨ex, s5⟩, he5, h⟩ := pbind_ok.mp h
            dsimp only at h
            obtain ⟨⟨tk6, s6⟩, he6, h⟩ := pbind_ok.mp h
            dsimp only at h
            obtain ⟨hv, hfin⟩ := Prod.mk.injEq .. |>.mp ((Except.ok.injEq _ _).mp h)
            subst hfin
            obtain ⟨hc4, _, _⟩ := eat_ok_elim he4
            have hiske : isKind (currentToken
                (extState (bindVar tk3.value tk2.value s3) suf)) "ASSIGN" = true := by
              rw [currentToken_ext hc4]
              rw [hc4] at hisk
              exact hisk
            rw [if_pos hiske]
            rw [eat_ext suf he4, pbind_ok_apply]
            dsimp only
            have hcur5 : s5.current < s4.tokens.length := by
              obtain ⟨hc6, _, _⟩ := eat_ok_elim he6
              have ht5 := (parseExpression_post he5).1.tokens_eq
              have := currentToken_some_lt hc6
              rw [ht5] at this
              exact this
            rw [parseExpression_ext suf (Nat.succ_le_succ_iff.mp hle) he5 hcur5, pbind_ok_apply]
            dsimp only
            rw [eat_ext suf he6, pbind_ok_apply]
            dsimp only
            rw [hv]
            rfl
          · rename_i hisk
            obtain ⟨⟨tk4, s4⟩, he4, h⟩ := pbind_ok.mp h
            dsimp only at h
            obtain ⟨hv, hfin⟩ := Prod.mk.injEq .. |>.mp ((Except.ok.injEq _ _).mp h)
            subst hfin
            obtain ⟨hc4, _, _⟩ := eat_ok_elim he4
            have hiske : ¬ isKind (currentToken
                (extState (bindVar tk3.value tk2.value s3) suf)) "ASSIGN" = true := by
              rw [currentToken_ext hc4]
              rw [hc4] at hisk
              exact hisk
            rw [if_neg hiske]
            rw [eat_ext suf he4, pbind_ok_apply]
            dsimp only
            rw [hv]
            rfl

theorem parseStatementOrBlock_succ (fuel : Nat) (s : PState) :
    parseStatementOrBlock (fuel + 1) s =
      (match currentToken s with
      | none => .error (.crash noneTypeMsg)
      | some token =>
        if token.type = "BLOCK_START" then parseBlock fuel s
        else if token.type = "FUNCTION_DEFINITION" then parseFunctionDefinition fuel s
        else if token.type = "VARIABLE_DEFINITION" then parseVariableDefinition fuel s
        else if token.type = "IF_CONDITIONAL" then parseIfConditional fuel s
        else if token.type = "FOR_LOOP" then parseForLoop fuel s
        else parseGenericStatement s) := by
  with_unfolding_all rfl

theorem parseBlock_succ (fuel : Nat) (s : PState) :
    parseBlock (fuel + 1) s =
      (do
      let (_, s) ← eat "BLOCK_START" s
      let s := pushScope s
      let (children, s) ← blockLoop fuel [] s
      let s ← popScope s
      let (_, s) ← eat "BLOCK_END" s
      .ok (Node.mk "Block" "" children, s)) := by
  with_unfolding_all rfl

theorem blockLoop_succ (fuel : Nat) (children : List Node) (s : PState) :
    blockLoop (fuel + 1) children s =
      (match currentToken s with
      | none => .ok (children, s)
      | some token =>
        if token.type = "BLOCK_END" then .ok (children, s)
        else do
          let (child, s) ← parseStatementOrBlock fuel s
          blockLoop fuel (children ++ [child]) s) := by
  with_unfolding_all rfl

theorem parseFunctionDefinition_succ (fuel : Nat) (s : PState) :
    parseFunctionDefinition (fuel + 1) s =
      (do
      let (_, s) ← eat "FUNCTION_DEFINITION" s
      let (funcType, s) ← eat "TYPE" s
      let (funcName, s) ← eat "IDENTIFIER" s
      if funcName.value ∈ s.definedFunctions then
        .error (.semanticError (funcDefinedMsg funcName.value))
      else do
        let s := { s with definedFunctions := s.definedFunctions ++ [funcName.value] }
        let (_, s) ← eat "LEFT_PAREN" s
        let s := pushScope s
        let (params, s) ← paramsLoop fuel [] s
        let (_, s) ← eat "RIGHT_PAREN" s
        let (_, s) ← eat "START_STATEMENT" s
        let (body, s) ← parseBlock fuel s
        let s ← popScope s
        .ok (Node.mk "FunctionDefinition" (funcName.value ++ ": " ++ funcType.value)
              [Node.mk "Parameters" "" params, body], s)) := by
  with_unfolding_all rfl

theorem parseIfConditional_succ (fuel : Nat) (s : PState) :
    parseIfConditional (fuel + 1) s =
      (do
      let (_, s) ← eat "IF_CONDITIONAL" s
      let (_, s) ← eat "LEFT_PAREN" s
      let (condition, s) ← parseExpression fuel s
      let (_, s) ← eat "RIGHT_PAREN" s
      let (_, s) ← eat "START_STATEMENT" s
      let (thenBlock, s) ← parseBlock fuel s
      if isKind (currentToken s) "ELSE_CONDITIONAL" then do
        let (_, s) ← eat "ELSE_CONDITIONAL" s
        let (elseBlock, s) ← parseBlock fuel s
        .ok (Node.mk "IfConditional" condition.value
              [thenBlock, Node.mk "ElseConditional" "" [elseBlock]], s)
      else
        .ok (Node.mk "IfConditional" condition.value [thenBlock], s)) := by
  with_unfolding_all rfl

theorem parseForLoop_succ (fuel : Nat) (s : PState) :
    parseForLoop (fuel + 1) s =
      (do
      let (_, s) ← eat "FOR_LOOP" s
      let (_, s) ← eat "LEFT_PAREN" s
      match currentToken s with
      | none => .error (.crash noneTypeMsg)
      | some token =>
        if token.type = "VARIABLE_DEFINITION" then do
          let (initNode, s) ← parseVariableDefinition fuel s
          let (condText, s) ← scanUntil fuel "COMMAND_END" "" s
          let (_, s) ← eat "COMMAND_END" s
          let (incText, s) ← scanUntil fuel "RIGHT_PAREN" "" s
          let (_, s) ← eat "RIGHT_PAREN" s
          let (_, s) ← eat "START_STATEMENT" s
          let (body, s) ← parseBlock fuel s
          .ok (Node.mk "ForLoop" ""
                [initNode, Node.mk "Condition" (pyStrip condText) [],
                 Node.mk "Increment" (pyStrip incText) [], body], s)
        else
          .error (.syntaxError (forInitMsg (some token)))) := by
  with_unfolding_all rfl

theorem topLoop_succ (fuel : Nat) (children : List Node) (s : PState) :
    topLoop (fuel + 1) children s =
      (match currentToken s with
      | none => .ok (children, s)
      | some token =>
        if token.type = "PROGRAM_END" then .ok (children, s)
        else do
          let (child, s) ← parseStatementOrBlock fuel s
          topLoop fuel (children ++ [child]) s) := by
  with_unfolding_all rfl

theorem parseProgram_succ (fuel : Nat) (s : PState) :
    parseProgram (fuel + 1) s =
      (do
      let (_, s) ← eat "PROGRAM_START" s
      let (children, s) ← topLoop fuel [] s
      let (_, s) ← eat "PROGRAM_END" s
      if s.blockCounter ≠ 0 then .error (.syntaxError mismatchedMsg)
      else .ok (Node.mk "Program" "" children, s)) := by
  with_unfolding_all rfl

theorem currentToken_isSome (s : PState) (h : s.current < s.tokens.length) :
    ∃ t, currentToken s = some t := by
  unfold currentToken
  exact ⟨_, List.getElem?_eq_some.mpr ⟨h, rfl⟩⟩

theorem master_ext : ∀ fuel : Nat,
    (∀ fuel' s v s' suf, fuel ≤ fuel' → parseStatementOrBlock fuel s = .ok (v, s') →
      s'.current < s.tokens.length →
      parseStatementOrBlock fuel' (extState s suf) = .ok (v, extState s' suf)) ∧
    (∀ fuel' s v s' suf, fuel ≤ fuel' → parseBlock fuel s = .ok (v, s') →
      parseBlock fuel' (extState s suf) = .ok (v, extState s' suf)) ∧
    (∀ fuel' children s v s' suf, fuel ≤ fuel' → blockLoop fuel children s = .ok (v, s') →
      s'.current < s.tokens.length →
      blockLoop fuel' children (extState s suf) = .ok (v, extState s' suf)) ∧
    (∀ fuel' s v s' suf, fuel ≤ fuel' → parseFunctionDefinition fuel s = .ok (v, s') →
      parseFunctionDefinition fuel' (extState s suf) = .ok (v, extState s' suf)) ∧
    (∀ fuel' s v s' suf, fuel ≤ fuel' → parseIfConditional fuel s = .ok (v, s') →
      s'.current < s.tokens.length →
      parseIfConditional fuel' (extState s suf) = .ok (v, extState s' suf)) ∧
    (∀ fuel' s v s' suf, fuel ≤ fuel' → parseForLoop fuel s = .ok (v, s') →
      parseForLoop fuel' (extState s suf) = .ok (v, extState s' suf)) ∧
    (∀ fuel' children s v s' suf, fuel ≤ fuel' → topLoop fuel children s = .ok (v, s') →
      s'.current < s.tokens.length →
      topLoop fuel' children (extState s suf) = .ok (v, extState s' suf)) ∧
    (∀ fuel' s v s' suf, fuel ≤ fuel' → parseProgram fuel s = .ok (v, s') →
      parseProgram fuel' (extState s suf) = .ok (v, extState s' suf)) := by
  intro fuel
  induction fuel with
  | zero =>
    refine ⟨?_, ?_, ?_, ?_, ?_, ?_, ?_, ?_⟩
    · intro fuel' s v s' suf hle h hcur; exact absurd h (by simp [parseStatementOrBlock])
    · intro fuel' s v s' suf hle h; exact absurd h (by simp [parseBlock])
    · intro fuel' c s v s' suf hle h hcur; exact absurd h (by simp [blockLoop])
    · intro fuel' s v s' suf hle h; exact absurd h (by simp [parseFunctionDefinition])
    · intro fuel' s v s' suf hle h hcur; exact absurd h (by simp [parseIfConditional])
    · intro fuel' s v s' suf hle h; exact absurd h (by simp [parseForLoop])
    · intro fuel' c s v s' suf hle h hcur; exact absurd h (by simp [topLoop])
    · intro fuel' s v s' suf hle h; exact absurd h (by simp [parseProgram])
  | succ fuel ih =>
    obtain ⟨ihS, ihB, ihL, ihF, ihI, ihR, ihT, ihP⟩ := ih
    refine ⟨?_, ?_, ?_, ?_, ?_, ?_, ?_, ?_⟩
    · -- parseStatementOrBlock
      intro fuel' s v s' suf hle h hcur
      cases fuel' with
      | zero => omega
      | succ fuel' =>
        have hle' := Nat.succ_le_succ_iff.mp hle
        rw [parseStatementOrBlock_succ] at h
        rw [parseStatementOrBlock_succ]
        split at h
        · exact absurd h (by simp)
        · rename_i token hc
          rw [currentToken_ext hc]
          split at h
          · rename_i h1
            simp only [h1, if_true]
            exact ihB _ _ _ _ suf hle' h
          · rename_i h1
            simp only [h1, if_false]
            split at h
            · rename_i h2
              simp only [h2, if_true]
              exact ihF _ _ _ _ suf hle' h
            · rename_i h2
              simp only [h2, if_false]
              split at h
              · rename_i h3
                simp only [h3, if_true]
                exact parseVariableDefinition_ext suf hle' h
              · rename_i h3
                simp only [h3, if_false]
                split at h
                · rename_i h4
                  simp only [h4, if_true]
                  exact ihI _ _ _ _ suf hle' h hcur
                · rename_i h4
                  simp only [h4, if_false]
                  split at h
                  · rename_i h5
                    simp only [h5, if_true]
                    exact ihR _ _ _ _ suf hle' h
                  · rename_i h5
                    simp only [h5, if_false]
                    exact parseGenericStatement_ext suf h
    · -- parseBlock
      intro fuel' s v s' suf hle h
      cases fuel' with
      | zero => omega
      | succ fuel' =>
        have hle' := Nat.succ_le_succ_iff.mp hle
        rw [parseBlock_succ] at h
        rw [parseBlock_succ]
        obtain ⟨⟨tk1, s1⟩, he1, h⟩ := pbind_ok.mp h
        dsimp only at h
        obtain ⟨⟨cs, s2⟩, hbl, h⟩ := pbind_ok.mp h
        dsimp only at h
        obtain ⟨s3, hpop, h⟩ := pbind_ok.mp h
        obtain ⟨⟨tk4, s4⟩, he4, h⟩ := pbind_ok.mp h
        dsimp only at h
        obtain ⟨hv, hfin⟩ := Prod.mk.injEq .. |>.mp ((Except.ok.injEq _ _).mp h)
        subst hfin
        obtain ⟨hpop3, _⟩ := popScope_ok hpop
        have hc2 : s2.current < (pushScope s1).tokens.length := by
          obtain ⟨hc4, _, _⟩ := eat_ok_elim he4
          have hl4 := currentToken_some_lt hc4
          have h3t : s3.tokens = s2.tokens := by rw [hpop3]
          have h3c : s3.current = s2.current := by rw [hpop3]
          have h2t : s2.tokens = (pushScope s1).tokens :=
            ((master_post fuel).2.2.1 _ _ _ _ hbl).1.tokens_eq
          rw [h3t, h3c] at hl4
          rw [← h2t]
          exact hl4
        rw [eat_ext suf he1, pbind_ok_apply]
        dsimp only
        have hpush : pushScope (extState s1 suf) = extState (pushScope s1) suf := rfl
        rw [hpush]
        rw [ihL _ _ _ _ _ suf hle' hbl hc2, pbind_ok_apply]
        dsimp only
        rw [popScope_ext suf hpop, pbind_ok_apply]
        rw [eat_ext suf he4, pbind_ok_apply]
        dsimp only
        rw [hv]
    · -- blockLoop
      intro fuel' children s v s' suf hle h hcur
      cases fuel' with
      | zero => omega
      | succ fuel' =>
        have hle' := Nat.succ_le_succ_iff.mp hle
        rw [blockLoop_succ] at h
        rw [blockLoop_succ]
        split at h
        · rename_i hc
          obtain ⟨hv, hfin⟩ := Prod.mk.injEq .. |>.mp ((Except.ok.injEq _ _).mp h)
          subst hfin
          obtain ⟨t0, ht0⟩ := currentToken_isSome _ hcur
          exact absurd ht0 (by rw [hc]; simp)
        · rename_i token hc
          rw [currentToken_ext hc]
          split at h
          · rename_i hterm
            obtain ⟨hv, hfin⟩ := Prod.mk.injEq .. |>.mp ((Except.ok.injEq _ _).mp h)
            subst hfin; subst hv
            simp only [hterm, if_true]
          · rename_i hterm
            simp only [hterm, if_false]
            obtain ⟨⟨child, s1⟩, hs1, h⟩ := pbind_ok.mp h
            dsimp only at h
            obtain ⟨hp1, _, _, _⟩ := (master_post fuel).1 _ _ _ hs1
            obtain ⟨hp2, _, _⟩ := (master_post fuel).2.2.1 _ _ _ _ h
            have hcur1 : s1.current < s.tokens.length := by
              have := hp2.current_mono
              omega
            have hcurR : s'.current < s1.tokens.length := by
              rw [hp1.tokens_eq]
              exact hcur
            rw [ihS _ _ _ _ suf hle' hs1 hcur1, pbind_ok_apply]
            dsimp only
            exact ihL _ _ _ _ _ suf hle' h hcurR
    · -- parseFunctionDefinition
      intro fuel' s v s' suf hle h
      cases fuel' with
      | zero => omega
      | succ fuel' =>
        have hle' := Nat.succ_le_succ_iff.mp hle
        rw [parseFunctionDefinition_succ] at h
        rw [parseFunctionDefinition_succ]
        obtain ⟨⟨tk1, s1⟩, he1, h⟩ := pbind_ok.mp h
        dsimp only at h
        obtain ⟨⟨tk2, s2⟩, he2, h⟩ := pbind_ok.mp h
        dsimp only at h
        obtain ⟨⟨tk3, s3⟩, he3, h⟩ := pbind_ok.mp h
        dsimp only at h
        rw [eat_ext suf he1, pbind_ok_apply]
        dsimp only
        rw [eat_ext suf he2, pbind_ok_apply]
        dsimp only
        rw [eat_ext suf he3, pbind_ok_apply]
        dsimp only
        split at h
        · exact absurd h (by simp)
        · rename_i hmem
          rw [if_neg (show ¬ tk3.value ∈ (extState s3 suf).definedFunctions from hmem)]
          obtain ⟨⟨tk4, s4⟩, he4, h⟩ := pbind_ok.mp h
          dsimp only at h
          obtain ⟨⟨params, s5⟩, hpl, h⟩ := pbind_ok.mp h
          dsimp only at h
          obtain ⟨⟨tk6, s6⟩, he6, h⟩ := pbind_ok.mp h
          dsimp only at h
          obtain ⟨⟨tk7, s7⟩, he7, h⟩ := pbind_ok.mp h
          dsimp only at h
          obtain ⟨⟨body, s8⟩, hbl, h⟩ := pbind_ok.mp h
          dsimp only at h
          obtain ⟨s9, hpop, h⟩ := pbind_ok.mp h
          obtain ⟨hv, hfin⟩ := Prod.mk.injEq .. |>.mp ((Except.ok.injEq _ _).mp h)
          subst hfin
          have hext : ({ extState s3 suf with definedFunctions :=
              (extState s3 suf).definedFunctions ++ [tk3.value] } : PState) =
              extState { s3 with definedFunctions :=
                s3.definedFunctions ++ [tk3.value] } suf := rfl
          rw [hext]
          rw [eat_ext suf he4, pbind_ok_apply]
          dsimp only
          have hpush : pushScope (extState s4 suf) = extState (pushScope s4) suf := rfl
          rw [hpush]
          have hc5 : s5.current < (pushScope s4).tokens.length := by
            obtain ⟨hc6, _, _⟩ := eat_ok_elim he6
            have hl6 := currentToken_some_lt hc6
            have h5t : s5.tokens = (pushScope s4).tokens :=
              (paramsLoop_post hpl).1.tokens_eq
            rw [← h5t]
            exact hl6
          rw [paramsLoop_ext suf hle' hpl hc5, pbind_ok_apply]
          dsimp only
          rw [eat_ext suf he6, pbind_ok_apply]
          dsimp only
          rw [eat_ext suf he7, pbind_ok_apply]
          dsimp only
          rw [ihB _ _ _ _ suf hle' hbl, pbind_ok_apply]
          dsimp only
          rw [popScope_ext suf hpop, pbind_ok_apply]
          rw [hv]
    · -- parseIfConditional
      intro fuel' s v s' suf hle h hcur
      cases fuel' with
      | zero => omega
      | succ fuel' =>
        have hle' := Nat.succ_le_succ_iff.mp hle
        rw [parseIfConditional_succ] at h
        rw [parseIfConditional_succ]
        obtain ⟨⟨tk1, s1⟩, he1, h⟩ := pbind_ok.mp h
        dsimp only at h
        obtain ⟨⟨tk2, s2⟩, he2, h⟩ := pbind_ok.mp h
        dsimp only at h
        obtain ⟨⟨cond, s3⟩, hex, h⟩ := pbind_ok.mp h
        dsimp only at h
        obtain ⟨⟨tk4, s4⟩, he4, h⟩ := pbind_ok.mp h
        dsimp only at h
        obtain ⟨⟨tk5, s5⟩, he5, h⟩ := pbind_ok.mp h
        dsimp only at h
        obtain ⟨⟨thenB, s6⟩, hb6, h⟩ := pbind_ok.mp h
        dsimp only at h
        rw [eat_ext suf he1, pbind_ok_apply]
        dsimp only
        rw [eat_ext suf he2, pbind_ok_apply]
        dsimp only
        have hc3 : s3.current < s2.tokens.length := by
          obtain ⟨hc4, _, _⟩ := eat_ok_elim he4
          have hl4 := currentToken_some_lt hc4
          rw [(parseExpression_post hex).1.tokens_eq] at hl4
          exact hl4
        rw [parseExpression_ext suf hle' hex hc3, pbind_ok_apply]
        dsimp only
        rw [eat_ext suf he4, pbind_ok_apply]
        dsimp only
        rw [eat_ext suf he5, pbind_ok_apply]
        dsimp only
        rw [ihB _ _ _ _ suf hle' hb6, pbind_ok_apply]
        dsimp only
        split at h
        · rename_i hisk
          obtain ⟨⟨tk7, s7⟩, he7, h⟩ := pbind_ok.mp h
          dsimp only at h
          obtain ⟨⟨elseB, s8⟩, hb8, h⟩ := pbind_ok.mp h
          dsimp only at h
          obtain ⟨hv, hfin⟩ := Prod.mk.injEq .. |>.mp ((Except.ok.injEq _ _).mp h)
          subst hfin
          obtain ⟨hc7, _, _⟩ := eat_ok_elim he7
          rw [if_pos (show isKind (currentToken (extState s6 suf))
            "ELSE_CONDITIONAL" = true by
              rw [currentToken_ext hc7]
              rw [hc7] at hisk
              exact hisk)]
          rw [eat_ext suf he7, pbind_ok_apply]
          dsimp only
          rw [ihB _ _ _ _ suf hle' hb8, pbind_ok_apply]
          dsimp only
          rw [hv]
        · rename_i hisk
          obtain ⟨hv, hfin⟩ := Prod.mk.injEq .. |>.mp ((Except.ok.injEq _ _).mp h)
          subst hfin
          have hcur6 : s6.current < s6.tokens.length := by
            have ht : s6.tokens = s.tokens := by
              rw [((master_post fuel).2.1 _ _ _ hb6).1.tokens_eq,
                (eat_ok_nums he5).1, (eat_ok_nums he4).1,
                (parseExpression_post hex).1.tokens_eq,
                (eat_ok_nums he2).1, (eat_ok_nums he1).1]
            rw [ht]
            exact hcur
          obtain ⟨t0, ht0⟩ := currentToken_isSome _ hcur6
          rw [if_neg (show ¬ isKind (currentToken (extState s6 suf))
            "ELSE_CONDITIONAL" = true by
              rw [currentToken_ext ht0]
              rw [ht0] at hisk
              exact hisk)]
          rw [hv]
    · -- parseForLoop
      intro fuel' s v s' suf hle h
      cases fuel' with
      | zero => omega
      | succ fuel' =>
        have hle' := Nat.succ_le_succ_iff.mp hle
        rw [parseForLoop_succ] at h
        rw [parseForLoop_succ]
        obtain ⟨⟨tk1, s1⟩, he1, h⟩ := pbind_ok.mp h
        dsimp only at h
        obtain ⟨⟨tk2, s2⟩, he2, h⟩ := pbind_ok.mp h
        dsimp only at h
        rw [eat_ext suf he1, pbind_ok_apply]
        dsimp only
        rw [eat_ext suf he2, pbind_ok_apply]
        dsimp only
        split at h
        · exact absurd h (by simp)
        · rename_i token hc
          rw [currentToken_ext hc]
          split at h
          · rename_i hvd
            simp only [hvd, if_true]
            obtain ⟨⟨initN, s3⟩, hvdp, h⟩ := pbind_ok.mp h
            dsimp only at h
            obtain ⟨⟨condT, s4⟩, hscn, h⟩ := pbind_ok.mp h
            dsimp only at h
            obtain ⟨⟨tk5, s5⟩, he5, h⟩ := pbind_ok.mp h
            dsimp only at h
            obtain ⟨⟨incT, s6⟩, hsin, h⟩ := pbind_ok.mp h
            dsimp only at h
            obtain ⟨⟨tk7, s7⟩, he7, h⟩ := pbind_ok.mp h
            dsimp only at h
            obtain ⟨⟨tk8, s8⟩, he8, h⟩ := pbind_ok.mp h
            dsimp only at h
            obtain ⟨⟨body, s9⟩, hb9, h⟩ := pbind_ok.mp h
            dsimp only at h
            obtain ⟨hv, hfin⟩ := Prod.mk.injEq .. |>.mp ((Except.ok.injEq _ _).mp h)
            subst hfin
            rw [parseVariableDefinition_ext suf hle' hvdp, pbind_ok_apply]
            dsimp only
            have hc4 : s4.current < s3.tokens.length := by
              obtain ⟨hc5, _, _⟩ := eat_ok_elim he5
              have hl5 := currentToken_some_lt hc5
              rw [(scanUntil_post hscn).1.tokens_eq] at hl5
              exact hl5
            rw [scanUntil_ext suf hle' hscn hc4, pbind_ok_apply]
            dsimp only
            rw [eat_ext suf he5, pbind_ok_apply]
            dsimp only
            have hc6 : s6.current < s5.tokens.length := by
              obtain ⟨hc7, _, _⟩ := eat_ok_elim he7
              have hl7 := currentToken_some_lt hc7
              rw [(scanUntil_post hsin).1.tokens_eq] at hl7
              exact hl7
            rw [scanUntil_ext suf hle' hsin hc6, pbind_ok_apply]
            dsimp only
            rw [eat_ext suf he7, pbind_ok_apply]
            dsimp only
            rw [eat_ext suf he8, pbind_ok_apply]
            dsimp only
            rw [ihB _ _ _ _ suf hle' hb9, pbind_ok_apply]
            dsimp only
            rw [hv]
          · exact absurd h (by simp)
    · -- topLoop
      intro fuel' children s v s' suf hle h hcur
      cases fuel' with
      | zero => omega
      | succ fuel' =>
        have hle' := Nat.succ_le_succ_iff.mp hle
        rw [topLoop_succ] at h
        rw [topLoop_succ]
        split at h
        · rename_i hc
          obtain ⟨hv, hfin⟩ := Prod.mk.injEq .. |>.mp ((Except.ok.injEq _ _).mp h)
          subst hfin
          obtain ⟨t0, ht0⟩ := currentToken_isSome _ hcur
          exact absurd ht0 (by rw [hc]; simp)
        · rename_i token hc
          rw [currentToken_ext hc]
          split at h
          · rename_i hterm
            obtain ⟨hv, hfin⟩ := Prod.mk.injEq .. |>.mp ((Except.ok.injEq _ _).mp h)
            subst hfin; subst hv
            simp only [hterm, if_true]
          · rename_i hterm
            simp only [hterm, if_false]
            obtain ⟨⟨child, s1⟩, hs1, h⟩ := pbind_ok.mp h
            dsimp only at h
            obtain ⟨hp1, _, _, _⟩ := (master_post fuel).1 _ _ _ hs1
            obtain ⟨hp2, _, _⟩ := (master_post fuel).2.2.2.2.2.2.1 _ _ _ _ h
            have hcur1 : s1.current < s.tokens.length := by
              have := hp2.current_mono
              omega
            have hcurR : s'.current < s1.tokens.length := by
              rw [hp1.tokens_eq]
              exact hcur
            rw [ihS _ _ _ _ suf hle' hs1 hcur1, pbind_ok_apply]
            dsimp only
            exact ihT _ _ _ _ _ suf hle' h hcurR
    · -- parseProgram
      intro fuel' s v s' suf hle h
      cases fuel' with
      | zero => omega
      | succ fuel' =>
        have hle' := Nat.succ_le_succ_iff.mp hle
        rw [parseProgram_succ] at h
        rw [parseProgram_succ]
        obtain ⟨⟨tk1, s1⟩, he1, h⟩ := pbind_ok.mp h
        dsimp only at h
        obtain ⟨⟨cs, s2⟩, htl, h⟩ := pbind_ok.mp h
        dsimp only at h
        obtain ⟨⟨tk3, s3⟩, he3, h⟩ := pbind_ok.mp h
        dsimp only at h
        rw [eat_ext suf he1, pbind_ok_apply]
        dsimp only
        have hc2 : s2.current < s1.tokens.length := by
          obtain ⟨hc3, _, _⟩ := eat_ok_elim he3
          have hl3 := currentToken_some_lt hc3
          rw [((master_post fuel).2.2.2.2.2.2.1 _ _ _ _ htl).1.tokens_eq] at hl3
          exact hl3
        rw [ihT _ _ _ _ _ suf hle' htl hc2, pbind_ok_apply]
        dsimp only
        rw [eat_ext suf he3, pbind_ok_apply]
        dsimp only
        split at h
        · exact absurd h (by simp)
        · rename_i hctr
          rw [if_neg (show ¬ (extState s3 suf).blockCounter ≠ 0 from hctr)]
          obtain ⟨hv, hfin⟩ := Prod.mk.injEq .. |>.mp ((Except.ok.injEq _ _).mp h)
          subst hfin
          rw [hv]

theorem parseVariableDefinition_succ (fuel : Nat) (s : PState) :
    parseVariableDefinition (fuel + 1) s =
      (do
      let (_, s) ← eat "VARIABLE_DEFINITION" s
      let (varType, s) ← eat "TYPE" s
      let (varName, s) ← eat "IDENTIFIER" s
      match s.scopes.getLast? with
      | none => .error (.crash indexErrMsg)
      | some frame =>
        if frameHas frame varName.value then
          .error (.semanticError (varDefinedMsg varName.value))
        else
          let s := bindVar varName.value varType.value s
          if isKind (currentToken s) "ASSIGN" then do
            let (_, s) ← eat "ASSIGN" s
            let (expr, s) ← parseExpression fuel s
            let (_, s) ← eat "COMMAND_END" s
            .ok (Node.mk "VariableDefinition"
                  (varType.value ++ " " ++ varName.value ++ " = " ++ expr.value) [], s)
          else do
            let (_, s) ← eat "COMMAND_END" s
            .ok (Node.mk "VariableDefinition"
                  (varType.value ++ " " ++ varName.value) [], s)) := by
  with_unfolding_all rfl

theorem parseProgram_ok_counter {fuel : Nat} {s : PState} {v : Node} {s' : PState}
    (h : parseProgram fuel s = .ok (v, s')) : s'.blockCounter = 0 := by
  cases fuel with
  | zero => exact absurd h (by simp [parseProgram])
  | succ fuel =>
    rw [parseProgram_succ] at h
    obtain ⟨⟨tk1, s1⟩, he1, h⟩ := pbind_ok.mp h
    dsimp only at h
    obtain ⟨⟨cs, s2⟩, htl, h⟩ := pbind_ok.mp h
    dsimp only at h
    obtain ⟨⟨tk3, s3⟩, he3, h⟩ := pbind_ok.mp h
    dsimp only at h
    split at h
    · exact absurd h (by simp)
    · rename_i hctr
      obtain ⟨_, hfin⟩ := Prod.mk.injEq .. |>.mp ((Except.ok.injEq _ _).mp h)
      subst hfin
      simpa using hctr

theorem advanceBy_zero (s : PState) : advanceBy 0 s = s := rfl

theorem advanceBy_succ (n : Nat) (s : PState) :
    advanceBy (n + 1) s = advanceBy n (advance s) := by
  unfold advanceBy advance
  dsimp only
  rw [show s.current + (n + 1) = s.current + 1 + n by omega]

theorem segTokens_none {term : String} {s : PState} (h : currentToken s = none) :
    segTokens term s = [] := by
  unfold segTokens
  have : s.tokens.drop s.current = [] := by
    apply List.drop_eq_nil_of_le
    unfold currentToken at h
    by_contra hlt
    push_neg at hlt
    obtain ⟨t, ht⟩ := currentToken_isSome s (by omega)
    unfold currentToken at ht
    rw [ht] at h
    simp at h
  rw [this]
  rfl

theorem drop_current_cons {s : PState} {t : Token} (h : currentToken s = some t) :
    s.tokens.drop s.current = t :: s.tokens.drop (s.current + 1) := by
  unfold currentToken at h
  obtain ⟨hlt, hget⟩ := List.getElem?_eq_some.mp h
  rw [List.drop_eq_getElem_cons hlt, hget]

theorem segTokens_term {term : String} {s : PState} {t : Token}
    (h : currentToken s = some t) (ht : t.type = term) :
    segTokens term s = [] := by
  unfold segTokens
  rw [drop_current_cons h]
  simp [List.takeWhile_cons, ht]

theorem segTokens_cons {term : String} {s : PState} {t : Token}
    (h : currentToken s = some t) (ht : ¬ t.type = term) :
    segTokens term s = t :: segTokens term (advance s) := by
  unfold segTokens
  rw [drop_current_cons h]
  have hadv : (advance s).tokens.drop (advance s).current =
      s.tokens.drop (s.current + 1) := rfl
  rw [hadv]
  simp [List.takeWhile_cons, ht]

theorem isVariableDefined_bindVar (n t : String) (s : PState) :
    isVariableDefined (bindVar n t s) n = true := by
  unfold isVariableDefined bindVar frameHas
  dsimp only
  simp [List.any_append]

theorem scanUntil_spec {fuel : Nat} : ∀ {term acc : String} {s : PState},
    s.tokens.length - s.current < fuel →
    scanUntil fuel term acc s =
      (match firstUndefined (segTokens term s) s with
      | some tk => .error (.semanticError (undefinedMsg tk.value))
      | none => .ok (joinValues acc (segTokens term s),
          advanceBy (segTokens term s).length s)) := by
  induction fuel with
  | zero =>
    intro term acc s hf
    omega
  | succ fuel ih =>
    intro term acc s hf
    unfold scanUntil
    split
    · rename_i hc
      rw [segTokens_none hc]
      simp [firstUndefined, joinValues, advanceBy_zero]
    · rename_i token hc
      split
      · rename_i ht
        rw [segTokens_term hc ht]
        simp [firstUndefined, joinValues, advanceBy_zero]
      · rename_i ht
        split
        · rename_i hid
          rw [segTokens_cons hc ht]
          have : firstUndefined (token :: segTokens term (advance s)) s =
              some token := by
            unfold firstUndefined
            rw [List.find?_cons_of_pos]
            simp only [Bool.and_eq_true, beq_iff_eq, Bool.not_eq_eq_eq_not,
              Bool.not_true]
            exact ⟨hid.1, by simp [hid.2]⟩
          rw [this]
        · rename_i hid
          rw [segTokens_cons hc ht]
          have hlt := currentToken_some_lt hc
          have hrec := @ih term (acc ++ token.value ++ " ") (advance s)
            (by simp only [advance]; omega)
          rw [hrec]
          have hpred : (token.type == "IDENTIFIER" &&
              !(isVariableDefined s token.value)) = false := by
            by_cases h1 : token.type = "IDENTIFIER"
            · by_cases h2 : isVariableDefined s token.value
              · simp [h1, h2]
              · exact absurd ⟨h1, by simpa using h2⟩ hid
            · simp [h1]
          have hfu : firstUndefined (token :: segTokens term (advance s)) s =
              firstUndefined (segTokens term (advance s)) s := by
            unfold firstUndefined
            rw [List.find?_cons_of_neg]
            simpa using hpred
          rw [hfu]
          have hsame : firstUndefined (segTokens term (advance s)) (advance s) =
              firstUndefined (segTokens term (advance s)) s := rfl
          rw [hsame]
          have hjoin : joinValues (acc ++ token.value ++ " ")
              (segTokens term (advance s)) =
              joinValues acc (token :: segTokens term (advance s)) := rfl
          rw [hjoin]
          have hlen : (token :: segTokens term (advance s)).length =
              (segTokens term (advance s)).length + 1 := rfl
          rw [hlen, advanceBy_succ]

theorem currentToken_eatAdvance (k : String) (s : PState) :
    currentToken (eatAdvance k s) = s.tokens[s.current + 1]? := rfl

theorem isVariableDefined_scopes_eq {s u : PState} (h : s.scopes = u.scopes)
    (x : String) : isVariableDefined s x = isVariableDefined u x := by
  unfold isVariableDefined
  rw [h]

/-- C1: the claim says `Parser.parse` either returns the root `Program` node
or aborts with exactly one of the two classified fatal errors, and that no
unclassified crash from dereferencing an absent current token can occur.  The
code violates this: on `[ProgramStart, ForLoop, LeftParen]` the initializer
check of `parse_for_loop` reads `.type` off `current_token()` with the input
exhausted, a Python `AttributeError` that escapes the driver's
`except RuntimeError` handler.  This theorem evaluates the embedded parser at
that failing input and shows the run ends in the unclassified crash. -/
theorem c1_for_loop_crash_on_exhausted_input :
    runParser c1Tokens = .error (.crash noneTypeMsg) := by
  with_unfolding_all rfl

/-- C2 counterexample: the claim states the block counter equals the number
of `BLOCK_START` tokens consumed so far minus the number of `BLOCK_END`
tokens consumed, counting every consumption including those absorbed by the
generic-statement fallback.  On `[ProgramStart, BlockEnd, ProgramEnd]` the
stray `BlockEnd` is absorbed as a generic `Statement` by a raw cursor advance
that leaves the counter untouched: the run succeeds with counter 0 although
one `BLOCK_END` was consumed, so the claimed equality fails at the final
point of the run. -/
theorem c2_block_counter_counterexample :
    runParser c2Tokens =
      .ok (Node.mk "Program" "" [Node.mk "Statement" "\x7d" []], c2Final) ∧
    ¬ (c2Final.blockCounter =
      (countKind "BLOCK_START" (c2Tokens.take c2Final.current) : Int) -
      countKind "BLOCK_END" (c2Tokens.take c2Final.current)) := by
  constructor
  · with_unfolding_all rfl
  · decide

/-- C2 (amended): at every point during a parse run the block counter equals
the number of `BLOCK_START` tokens minus the number of `BLOCK_END` tokens
consumed through the kind-checked `eat` primitive.  The cursor moves only
through `advance` and `eat`: a raw `advance` (the flattening loops and the
generic-statement fallback) leaves the counter and both eat-counts
unchanged, a successful `eat` preserves the equality, the initial state
satisfies it, and every production of the grammar — the loops included —
carries it from its initial to its final state, so it holds at every point
of every run.  At the end of a successful parse the counter is exactly
zero. -/
theorem c2_block_counter_amended :
    (∀ s : PState, (advance s).blockCounter = s.blockCounter ∧
      (advance s).eatStarts = s.eatStarts ∧ (advance s).eatEnds = s.eatEnds) ∧
    (∀ (k : String) (s : PState) (tk : Token) (s' : PState),
      eat k s = .ok (tk, s') → CounterInv s → CounterInv s') ∧
    (∀ ts : List Token, CounterInv (initState ts)) ∧
    (∀ (fuel : Nat) (acc : String) (s : PState) (v : String) (s' : PState),
      exprLoop fuel acc s = .ok (v, s') → CounterInv s → CounterInv s') ∧
    (∀ (fuel : Nat) (term acc : String) (s : PState) (v : String) (s' : PState),
      scanUntil fuel term acc s = .ok (v, s') → CounterInv s → CounterInv s') ∧
    (∀ (fuel : Nat) (c : List Node) (s : PState) (v : List Node) (s' : PState),
      paramsLoop fuel c s = .ok (v, s') → CounterInv s → CounterInv s') ∧
    (∀ (fuel : Nat) (s : PState) (v : Node) (s' : PState),
      parseExpression fuel s = .ok (v, s') → CounterInv s → CounterInv s') ∧
    (∀ (s : PState) (v : Node) (s' : PState),
      parseGenericStatement s = .ok (v, s') → CounterInv s → CounterInv s') ∧
    (∀ (fuel : Nat) (s : PState) (v : Node) (s' : PState),
      parseVariableDefinition fuel s = .ok (v, s') → CounterInv s → CounterInv s') ∧
    (∀ (fuel : Nat) (s : PState) (v : Node) (s' : PState),
      parseStatementOrBlock fuel s = .ok (v, s') → CounterInv s → CounterInv s') ∧
    (∀ (fuel : Nat) (s : PState) (v : Node) (s' : PState),
      parseBlock fuel s = .ok (v, s') → CounterInv s → CounterInv s') ∧
    (∀ (fuel : Nat) (c : List Node) (s : PState) (v : List Node) (s' : PState),
      blockLoop fuel c s = .ok (v, s') → CounterInv s → CounterInv s') ∧
    (∀ (fuel : Nat) (s : PState) (v : Node) (s' : PState),
      parseFunctionDefinition fuel s = .ok (v, s') → CounterInv s → CounterInv s') ∧
    (∀ (fuel : Nat) (s : PState) (v : Node) (s' : PState),
      parseIfConditional fuel s = .ok (v, s') → CounterInv s → CounterInv s') ∧
    (∀ (fuel : Nat) (s : PState) (v : Node) (s' : PState),
      parseForLoop fuel s = .ok (v, s') → CounterInv s → CounterInv s') ∧
    (∀ (fuel : Nat) (c : List Node) (s : PState) (v : List Node) (s' : PState),
      topLoop fuel c s = .ok (v, s') → CounterInv s → CounterInv s') ∧
    (∀ (fuel : Nat) (s : PState) (v : Node) (s' : PState),
      parseProgram fuel s = .ok (v, s') → CounterInv s → CounterInv s') ∧
    (∀ (ts : List Token) (v : Node) (s' : PState), runParser ts = .ok (v, s') →
      CounterInv s' ∧ s'.blockCounter = 0) := by
  refine ⟨fun s => ⟨rfl, rfl, rfl⟩,
    fun k s tk s' h hi => (eat_post h).1.counter_inv hi,
    fun ts => by simp [CounterInv, initState],
    fun fuel acc s v s' h hi => (exprLoop_post h).1.counter_inv hi,
    fun fuel term acc s v s' h hi => (scanUntil_post h).1.counter_inv hi,
    fun fuel c s v s' h hi => (paramsLoop_post h).1.counter_inv hi,
    fun fuel s v s' h hi => (parseExpression_post h).1.counter_inv hi,
    fun s v s' h hi => (parseGenericStatement_post h).1.counter_inv hi,
    fun fuel s v s' h hi => (parseVariableDefinition_post h).1.counter_inv hi,
    fun fuel s v s' h hi => ((master_post fuel).1 _ _ _ h).1.counter_inv hi,
    fun fuel s v s' h hi => ((master_post fuel).2.1 _ _ _ h).1.counter_inv hi,
    fun fuel c s v s' h hi => ((master_post fuel).2.2.1 _ _ _ _ h).1.counter_inv hi,
    fun fuel s v s' h hi => ((master_post fuel).2.2.2.1 _ _ _ h).1.counter_inv hi,
    fun fuel s v s' h hi => ((master_post fuel).2.2.2.2.1 _ _ _ h).1.counter_inv hi,
    fun fuel s v s' h hi => ((master_post fuel).2.2.2.2.2.1 _ _ _ h).1.counter_inv hi,
    fun fuel c s v s' h hi =>
      ((master_post fuel).2.2.2.2.2.2.1 _ _ _ _ h).1.counter_inv hi,
    fun fuel s v s' h hi =>
      ((master_post fuel).2.2.2.2.2.2.2 _ _ _ h).1.counter_inv hi,
    fun ts v s' h => ?_⟩
  unfold runParser at h
  refine ⟨?_, parseProgram_ok_counter h⟩
  have hcp := ((master_post (parseFuel ts)).2.2.2.2.2.2.2 _ _ _ h).1
  exact hcp.counter_inv (by simp [initState])

/-- C2 witness: the every-point invariant applied concretely — a raw
advance leaving the counter untouched, a concrete successful `eat` of a
block delimiter preserving the invariant, a concrete successfully parsed
block carrying it through, and the final state of the concrete successful
run over `c3Tokens`. -/
theorem c2_block_counter_amended_witness :
    ((advance (initState c2Tokens)).blockCounter =
        (initState c2Tokens).blockCounter ∧
      (advance (initState c2Tokens)).eatStarts = (initState c2Tokens).eatStarts ∧
      (advance (initState c2Tokens)).eatEnds = (initState c2Tokens).eatEnds) ∧
    CounterInv (eatAdvance "BLOCK_START" c6BlockInit) ∧
    CounterInv c6BlockFinal ∧
    (CounterInv c3Final ∧ c3Final.blockCounter = 0) := by
  obtain ⟨hadv, heat, hinit, _, _, _, _, _, _, _, hblock, _, _, _, _, _, _, hfin⟩ :=
    c2_block_counter_amended
  refine ⟨hadv (initState c2Tokens), ?_, ?_, ?_⟩
  · exact heat "BLOCK_START" c6BlockInit (Token.mk "BLOCK_START" "\x7b")
      (eatAdvance "BLOCK_START" c6BlockInit) (by with_unfolding_all rfl)
      (by unfold CounterInv; decide)
  · exact hblock 5 c6BlockInit (Node.mk "Block" "" []) c6BlockFinal
      (by with_unfolding_all rfl) (by unfold CounterInv; decide)
  · exact hfin c3Tokens c3Tree c3Final (by with_unfolding_all rfl)

/-- C3: on the specification's concrete token scenario, the parse succeeds
and returns a root `Program` node with exactly two children in order, a
`VariableDefinition` node with text `int x = 1` and a `Return` node with
text `x`. -/
theorem c3_concrete_scenario :
    (runParser c3Tokens).map Prod.fst =
      .ok (Node.mk "Program" ""
        [Node.mk "VariableDefinition" "int x = 1" [],
         Node.mk "Return" "x" []]) := by
  with_unfolding_all rfl

/-- C4: function names are globally unique.  (i) Whenever a function
definition is recognized whose name is already in the global definition set,
`parse_function_definition` aborts at once with the already-defined semantic
error; (ii) the definition set only ever grows across any successfully
parsed statement, at any nesting depth; (iii) concretely, a program with two
`FunctionDef` productions both named `main` fails with the semantic error. -/
theorem c4_function_names_globally_unique :
    (∀ (fuel : Nat) (s : PState) (fd ty idt : Token),
      currentToken s = some fd → fd.type = "FUNCTION_DEFINITION" →
      s.tokens[s.current + 1]? = some ty → ty.type = "TYPE" →
      s.tokens[s.current + 2]? = some idt → idt.type = "IDENTIFIER" →
      idt.value ∈ s.definedFunctions →
      parseFunctionDefinition (fuel + 1) s =
        .error (.semanticError (funcDefinedMsg idt.value))) ∧
    (∀ (fuel : Nat) (s : PState) (v : Node) (s' : PState),
      parseStatementOrBlock fuel s = .ok (v, s') →
      s.definedFunctions ⊆ s'.definedFunctions) ∧
    runParser c4Tokens = .error (.semanticError (funcDefinedMsg "main")) := by
  refine ⟨?_, ?_, ?_⟩
  · intro fuel s fd ty idt h1 h2 h3 h4 h5 h6 hmem
    rw [parseFunctionDefinition_succ]
    rw [eat_ok_intro h1 h2, pbind_ok_apply]
    dsimp only
    rw [eat_ok_intro (show currentToken
      (eatAdvance "FUNCTION_DEFINITION" s) = some ty from h3) h4, pbind_ok_apply]
    dsimp only
    rw [eat_ok_intro (show currentToken
      (eatAdvance "TYPE" (eatAdvance "FUNCTION_DEFINITION" s)) = some idt from h5)
      h6, pbind_ok_apply]
    dsimp only
    rw [if_pos (show idt.value ∈ (eatAdvance "IDENTIFIER" (eatAdvance "TYPE"
      (eatAdvance "FUNCTION_DEFINITION" s))).definedFunctions from hmem)]
  · intro fuel s v s' h
    exact ((master_post fuel).1 _ _ _ h).1.funcs_sub
  · with_unfolding_all rfl

/-- C4 witness: the duplicate check applied to a concrete state whose
definition set already holds `main`, and monotonicity of the definition set
applied to a concrete successfully parsed statement. -/
theorem c4_function_names_globally_unique_witness :
    parseFunctionDefinition 5 c4DupState =
      .error (.semanticError (funcDefinedMsg "main")) ∧
    (initState c4StmtTokens).definedFunctions ⊆ c4StmtFinal.definedFunctions := by
  constructor
  · exact c4_function_names_globally_unique.1 4 c4DupState
      (Token.mk "FUNCTION_DEFINITION" "def") (Token.mk "TYPE" "int")
      (Token.mk "IDENTIFIER" "main") (by with_unfolding_all rfl) rfl
      (by with_unfolding_all rfl) rfl (by with_unfolding_all rfl) rfl (by decide)
  · exact c4_function_names_globally_unique.2.1 6 (initState c4StmtTokens)
      (Node.mk "VariableDefinition" "int y" []) c4StmtFinal
      (by with_unfolding_all rfl)

/-- C5: a variable definition fails with a semantic error if and only if the
declared name already exists in the innermost scope frame.  (i) With the
definition's three tokens in place and the innermost frame in hand, the run
produces a semantic error exactly when the name is a key of that frame —
shadowing an outer frame's name is not a semantic error; (ii) concretely,
redefining `a` in a nested block after defining it outside is accepted;
(iii) redefining `a` twice in the same scope is rejected. -/
theorem c5_innermost_frame_redefinition_iff :
    (∀ (fuel : Nat) (s : PState) (vd ty idt : Token)
      (frame : List (String × String)),
      currentToken s = some vd → vd.type = "VARIABLE_DEFINITION" →
      s.tokens[s.current + 1]? = some ty → ty.type = "TYPE" →
      s.tokens[s.current + 2]? = some idt → idt.type = "IDENTIFIER" →
      s.scopes.getLast? = some frame →
      ((∃ m, parseVariableDefinition (fuel + 1) s = .error (.semanticError m)) ↔
        frameHas frame idt.value = true)) ∧
    (runParser c5aTokens).map Prod.fst = .ok c5aTree ∧
    runParser c5bTokens = .error (.semanticError (varDefinedMsg "a")) := by
  refine ⟨?_, by with_unfolding_all rfl, by with_unfolding_all rfl⟩
  intro fuel s vd ty idt frame h1 h2 h3 h4 h5 h6 hg
  have hg' : (eatAdvance "IDENTIFIER" (eatAdvance "TYPE"
      (eatAdvance "VARIABLE_DEFINITION" s))).scopes.getLast? = some frame := hg
  constructor
  · rintro ⟨m, hm⟩
    rw [parseVariableDefinition_succ] at hm
    rw [eat_ok_intro h1 h2, pbind_ok_apply] at hm
    dsimp only at hm
    rw [eat_ok_intro (show currentToken
      (eatAdvance "VARIABLE_DEFINITION" s) = some ty from h3) h4,
      pbind_ok_apply] at hm
    dsimp only at hm
    rw [eat_ok_intro (show currentToken
      (eatAdvance "TYPE" (eatAdvance "VARIABLE_DEFINITION" s)) = some idt from h5)
      h6, pbind_ok_apply] at hm
    dsimp only at hm
    rw [hg'] at hm
    split at hm
    · rename_i hnone
      exact absurd hnone (by simp)
    · rename_i frame2 heq
      have hfr : frame = frame2 := by
        injection heq
      subst hfr
      split at hm
      · rename_i hfh
        exact hfh
      · rename_i hfh
        exfalso
        split at hm
        · rcases pbind_error.mp hm with hx | ⟨⟨tk4, s4⟩, he4, hm⟩
          · obtain ⟨m2, hm2⟩ := eat_error_syntax hx
            simp at hm2
          · dsimp only at hm
            rcases pbind_error.mp hm with hx | ⟨⟨ex, s5⟩, he5, hm⟩
            · have := parseExpression_error hx
              simp at this
            · dsimp only at hm
              rcases pbind_error.mp hm with hx | ⟨⟨tk6, s6⟩, he6, hm⟩
              · obtain ⟨m2, hm2⟩ := eat_error_syntax hx
                simp at hm2
              · simp at hm
        · rcases pbind_error.mp hm with hx | ⟨⟨tk4, s4⟩, he4, hm⟩
          · obtain ⟨m2, hm2⟩ := eat_error_syntax hx
            simp at hm2
          · simp at hm
  · intro hfh
    refine ⟨varDefinedMsg idt.value, ?_⟩
    rw [parseVariableDefinition_succ]
    rw [eat_ok_intro h1 h2, pbind_ok_apply]
    dsimp only
    rw [eat_ok_intro (show currentToken
      (eatAdvance "VARIABLE_DEFINITION" s) = some ty from h3) h4, pbind_ok_apply]
    dsimp only
    rw [eat_ok_intro (show currentToken
      (eatAdvance "TYPE" (eatAdvance "VARIABLE_DEFINITION" s)) = some idt from h5)
      h6, pbind_ok_apply]
    dsimp only
    rw [hg']
    simp only [hfh, if_true]

/-- C5 witness: the iff applied to a concrete state whose innermost frame
already binds the declared name. -/
theorem c5_innermost_frame_redefinition_iff_witness :
    (∃ m, parseVariableDefinition 3 c5WitState = .error (.semanticError m)) ↔
      frameHas [("a", "int")] "a" = true :=
  c5_innermost_frame_redefinition_iff.1 2 c5WitState
    (Token.mk "VARIABLE_DEFINITION" "var") (Token.mk "TYPE" "int")
    (Token.mk "IDENTIFIER" "a") [("a", "int")]
    (by with_unfolding_all rfl) rfl (by with_unfolding_all rfl) rfl
    (by with_unfolding_all rfl) rfl (by with_unfolding_all rfl)

/-- C6: scope frame lifetime equals the block's lexical extent.  (i) A
successfully parsed block hands back exactly the scope stack it started
from, so names bound inside its frame are no longer resolvable afterwards;
(ii) concretely, using in a sibling block an identifier defined in a
previous block fails with the not-defined semantic error. -/
theorem c6_scope_exit_erases_visibility :
    (∀ (fuel : Nat) (s : PState) (v : Node) (s' : PState),
      parseBlock fuel s = .ok (v, s') → s'.scopes = s.scopes) ∧
    runParser c6Tokens = .error (.semanticError (undefinedMsg "a")) := by
  refine ⟨?_, by with_unfolding_all rfl⟩
  intro fuel s v s' h
  exact ((master_post fuel).2.1 _ _ _ h).2.2

/-- C6 witness: block scope restoration applied to a concrete successful
block parse. -/
theorem c6_scope_exit_erases_visibility_witness :
    c6BlockFinal.scopes = c6BlockInit.scopes :=
  c6_scope_exit_erases_visibility.1 5 c6BlockInit (Node.mk "Block" "" [])
    c6BlockFinal (by with_unfolding_all rfl)

/-- C7: during the flattening of a for-loop clause, every `IDENTIFIER` token
up to the terminator is checked against the scope stack and the first
unresolvable one aborts with a semantic error naming it, while other tokens
are concatenated without validation.  (i) The flattening loop is fully
characterized: it returns the error for the first undefined identifier of
the segment before the terminator, and otherwise the space-joined texts of
the whole segment with the cursor moved past it; (ii) a successfully parsed
variable definition (the loop initializer) makes its declared name resolve
in the resulting scope stack, so it is visible to the clause scans;
(iii) concretely, a for-loop whose clauses reference the initializer's
variable parses successfully. -/
theorem c7_for_clause_flattening_validates_identifiers :
    (∀ (fuel : Nat) (term acc : String) (s : PState),
      s.tokens.length - s.current < fuel →
      scanUntil fuel term acc s =
        (match firstUndefined (segTokens term s) s with
        | some tk => .error (.semanticError (undefinedMsg tk.value))
        | none => .ok (joinValues acc (segTokens term s),
            advanceBy (segTokens term s).length s))) ∧
    (∀ (fuel : Nat) (s : PState) (vd ty idt : Token) (v : Node) (s' : PState),
      currentToken s = some vd → vd.type = "VARIABLE_DEFINITION" →
      s.tokens[s.current + 1]? = some ty → ty.type = "TYPE" →
      s.tokens[s.current + 2]? = some idt → idt.type = "IDENTIFIER" →
      parseVariableDefinition fuel s = .ok (v, s') →
      isVariableDefined s' idt.value = true) ∧
    (runParser c7Tokens).map Prod.fst = .ok c7Tree := by
  refine ⟨?_, ?_, by with_unfolding_all rfl⟩
  · intro fuel term acc s hf
    exact scanUntil_spec hf
  · intro fuel s vd ty idt v s' h1 h2 h3 h4 h5 h6 h
    cases fuel with
    | zero => exact absurd h (by simp [parseVariableDefinition])
    | succ fuel =>
      rw [parseVariableDefinition_succ] at h
      obtain ⟨⟨tk1, s1⟩, he1, h⟩ := pbind_ok.mp h
      dsimp only at h
      obtain ⟨⟨tk2, s2⟩, he2, h⟩ := pbind_ok.mp h
      dsimp only at h
      obtain ⟨⟨tk3, s3⟩, he3, h⟩ := pbind_ok.mp h
      dsimp only at h
      obtain ⟨hc1, _, hs1⟩ := eat_ok_elim he1
      obtain ⟨hc2, _, hs2⟩ := eat_ok_elim he2
      obtain ⟨hc3, _, hs3⟩ := eat_ok_elim he3
      have h5' : currentToken s2 = some idt := by
        rw [hs2, hs1]
        exact h5
      have hidt : tk3 = idt := by
        have := hc3.symm.trans h5'
        injection this
      split at h
      · exact absurd h (by simp)
      · rename_i frame hg
        split at h
        · exact absurd h (by simp)
        · rename_i hfh
          split at h
          · obtain ⟨⟨tk4, s4⟩, he4, h⟩ := pbind_ok.mp h
            dsimp only at h
            obtain ⟨⟨ex, s5⟩, he5, h⟩ := pbind_ok.mp h
            dsimp only at h
            obtain ⟨⟨tk6, s6⟩, he6, h⟩ := pbind_ok.mp h
            dsimp only at h
            obtain ⟨_, hfin⟩ := Prod.mk.injEq .. |>.mp ((Except.ok.injEq _ _).mp h)
            rw [← hfin, ← hidt]
            have hsc : s6.scopes = (bindVar tk3.value tk2.value s3).scopes := by
              rw [(eat_post he6).2.2, (parseExpression_post he5).2,
                (eat_post he4).2.2]
            rw [isVariableDefined_scopes_eq hsc]
            exact isVariableDefined_bindVar tk3.value tk2.value s3
          · obtain ⟨⟨tk4, s4⟩, he4, h⟩ := pbind_ok.mp h
            dsimp only at h
            obtain ⟨_, hfin⟩ := Prod.mk.injEq .. |>.mp ((Except.ok.injEq _ _).mp h)
            rw [← hfin, ← hidt]
            have hsc : s4.scopes = (bindVar tk3.value tk2.value s3).scopes :=
              (eat_post he4).2.2
            rw [isVariableDefined_scopes_eq hsc]
            exact isVariableDefined_bindVar tk3.value tk2.value s3

/-- C7 witness: the scan characterization applied to a concrete state (one
resolvable identifier followed by an unresolvable one), and initializer
visibility applied to a concrete successful variable definition. -/
theorem c7_for_clause_flattening_validates_identifiers_witness :
    scanUntil 5 "COMMAND_END" "" c7ScanState =
      (match firstUndefined (segTokens "COMMAND_END" c7ScanState) c7ScanState with
      | some tk => .error (.semanticError (undefinedMsg tk.value))
      | none => .ok (joinValues "" (segTokens "COMMAND_END" c7ScanState),
          advanceBy (segTokens "COMMAND_END" c7ScanState).length c7ScanState)) ∧
    isVariableDefined c4StmtFinal "y" = true := by
  constructor
  · exact c7_for_clause_flattening_validates_identifiers.1 5 "COMMAND_END" ""
      c7ScanState (by decide)
  · exact c7_for_clause_flattening_validates_identifiers.2.1 5
      (initState c4StmtTokens) (Token.mk "VARIABLE_DEFINITION" "var")
      (Token.mk "TYPE" "int") (Token.mk "IDENTIFIER" "y")
      (Node.mk "VariableDefinition" "int y" []) c4StmtFinal
      (by with_unfolding_all rfl) rfl (by with_unfolding_all rfl) rfl
      (by with_unfolding_all rfl) rfl (by with_unfolding_all rfl)

/-- C8: the scope stack starts as a single empty global frame, and every
successful parse returns a scope stack of exactly one frame again (every
push is matched by a pop on the successful-return path). -/
theorem c8_scope_stack_single_frame (ts : List Token) :
    (initState ts).scopes = [[]] ∧
    ∀ (v : Node) (s' : PState), runParser ts = .ok (v, s') →
      s'.scopes.length = 1 := by
  refine ⟨rfl, fun v s' h => ?_⟩
  unfold runParser at h
  have hlen := ((master_post (parseFuel ts)).2.2.2.2.2.2.2 _ _ _ h).2.1
  rw [hlen]
  rfl

/-- C8 witness: applied to the concrete successful run over `c2Tokens`. -/
theorem c8_scope_stack_single_frame_witness :
    (initState c2Tokens).scopes = [[]] ∧ c2Final.scopes.length = 1 :=
  ⟨(c8_scope_stack_single_frame c2Tokens).1,
   (c8_scope_stack_single_frame c2Tokens).2
     (Node.mk "Program" "" [Node.mk "Statement" "\x7d" []]) c2Final
     (by with_unfolding_all rfl)⟩

/-- C9: the parser terminates on every finite token sequence.  (i) Every
successfully parsed statement strictly advances the cursor, which bounds
the recursion by the number of remaining tokens; (ii) the fuel supplied by
`runParser` is therefore never exhausted, on any input. -/
theorem c9_parser_terminates :
    (∀ (fuel : Nat) (s : PState) (v : Node) (s' : PState),
      parseStatementOrBlock fuel s = .ok (v, s') → s.current < s'.current) ∧
    ∀ ts : List Token, runParser ts ≠ .error .outOfFuel := by
  constructor
  · intro fuel s v s' h
    exact ((master_post fuel).1 _ _ _ h).2.1
  · intro ts
    unfold runParser
    refine (master_fuel (parseFuel ts)).2.2.2.2.2.2.2 (initState ts) ?_
    show 3 * (ts.length - 0) + 3 ≤ 3 * ts.length + 8
    omega

/-- C9 witness: strict cursor progress on a concrete statement, and fuel
adequacy on a concrete run. -/
theorem c9_parser_terminates_witness :
    (initState c4StmtTokens).current < c4StmtFinal.current ∧
    runParser c3Tokens ≠ .error .outOfFuel :=
  ⟨c9_parser_terminates.1 6 (initState c4StmtTokens)
     (Node.mk "VariableDefinition" "int y" []) c4StmtFinal
     (by with_unfolding_all rfl),
   c9_parser_terminates.2 c3Tokens⟩

/-- C10: tokens after the first statement-position `ProgramEnd` are ignored
rather than rejected: appending any suffix to a token sequence whose parse
succeeds leaves the resulting tree unchanged (the parser never examines
tokens beyond the `ProgramEnd` it consumes). -/
theorem c10_trailing_tokens_ignored (pre suf : List Token) (v : Node)
    (s' : PState) (h : runParser pre = .ok (v, s')) :
    runParser (pre ++ suf) = .ok (v, extState s' suf) := by
  unfold runParser at h ⊢
  have hle : parseFuel pre ≤ parseFuel (pre ++ suf) := by
    simp only [parseFuel, List.length_append]
    omega
  have hmain := (master_ext (parseFuel pre)).2.2.2.2.2.2.2
    (parseFuel (pre ++ suf)) (initState pre) v s' suf hle h
  have hini : extState (initState pre) suf = initState (pre ++ suf) := rfl
  rw [hini] at hmain
  exact hmain

/-- C10 witness: the concrete scenario run extended by a junk suffix parses
to the same tree. -/
theorem c10_trailing_tokens_ignored_witness :
    runParser (c3Tokens ++ c10Suf) = .ok (c3Tree, extState c3Final c10Suf) :=
  c10_trailing_tokens_ignored c3Tokens c10Suf c3Tree c3Final
    (by with_unfolding_all rfl)
